import Mathlib

/-!
# HAL UART DMA example (`main.c`): embedding and verification

The program is embedded as a transition system.  The main thread executes one source
statement of `main` per step (the program counter names the source line), and the
interrupt path (`uart_cb`, invoked by the HAL) and the DMA engine of the receive transfer
are further kinds of step that may be interleaved with it.
-/

namespace UartDma

/-! ## Macros of `main.c` (lines 54-58) -/

def UART_PRIORITY : Nat := 4
def UART_BAUD_RATE : Nat := 115200
def DMA_PRIORITY : Nat := 3
def DELAY_MILLIS : Nat := 5000
def DATA_SIZE : Nat := 26

/-- The character constant `'A'`. -/
def CHAR_A : Nat := 65

/-- Modulus of `uint32_t` arithmetic (the loop counters). -/
def UINT32_MOD : Nat := 4294967296

/-- Modulus of `uint8_t` (the buffer elements). -/
def UINT8_MOD : Nat := 256

/-! ## What the HAL and BSP contribute

Their headers and code are not part of the source.  The constants the program compares
against and the status every library call hands back are parameters of the model. -/

/-- Header constants used by `main.c` and the status returned by each setup call. -/
structure Hal where
  CY_RSLT_SUCCESS : Nat
  CYHAL_UART_IRQ_TX_DONE : Nat
  CYHAL_UART_IRQ_RX_DONE : Nat
  cybsp_init : Nat
  cy_retarget_io_init_fc : Nat
  cyhal_uart_init : Nat
  cyhal_uart_set_baud : Nat
  cyhal_uart_set_async_mode : Nat
  cyhal_uart_enable_event : Nat
  deriving DecidableEq, Repr

/-- The argument `CYHAL_ASYNC_DMA` of `cyhal_uart_set_async_mode` is one of the HAL's two
transfer modes. -/
inductive cyhal_async_mode_t
  | CYHAL_ASYNC_SW
  | CYHAL_ASYNC_DMA
  deriving DecidableEq, Repr

/-- Functions of `main.c` that are passed as callbacks. -/
inductive Callback
  | uart_cb
  deriving DecidableEq, Repr

/-- The record `uart_config` (lines 72-79); `rx_buffer = NULL` is `none`. -/
structure cyhal_uart_cfg_t where
  data_bits : Nat
  stop_bits : Nat
  parity_none : Bool
  rx_buffer : Option (List Nat)
  rx_buffer_size : Nat
  deriving DecidableEq, Repr

def uart_config : cyhal_uart_cfg_t :=
  { data_bits := 8, stop_bits := 1, parity_none := true, rx_buffer := none, rx_buffer_size := 0 }

/-- Calls that leave the program, in the order they are made, with their arguments. -/
inductive Event
  | cybsp_init
  | cy_retarget_io_init_fc
  | printf (fmt : String) (args : List Nat)
  | enable_irq
  | cyhal_uart_init (cfg : cyhal_uart_cfg_t)
  | cyhal_uart_set_baud (baud : Nat)
  | cyhal_uart_set_async_mode (mode : cyhal_async_mode_t) (priority : Nat)
  | cyhal_uart_register_callback (cb : Callback)
  | cyhal_uart_enable_event (event : Nat) (priority : Nat) (enable : Bool)
  | cyhal_uart_clear
  | cyhal_uart_write_async (data : List Nat) (length : Nat)
  | cyhal_uart_read_async (length : Nat)
  | cyhal_system_delay_ms (ms : Nat)
  deriving DecidableEq, Repr

/-- The two global buffers. -/
inductive Buf
  | tx_data
  | rx_data
  deriving DecidableEq, Repr

/-- Buffer accesses of the main thread, in the order they are made; `loop_init` records
that the initialiser `i = 0` of a `for` loop ran. -/
inductive Access
  | loop_init
  | store (b : Buf) (index : Nat)
  | load (b : Buf) (index : Nat)
  | memset (b : Buf) (count : Nat)
  deriving DecidableEq, Repr

/-- Program counter of `main`: the source line of the statement executed next.
`halt` is the state after a failed `CY_ASSERT`, `fault` the state after an access outside
a buffer. -/
inductive PC
  | L158 | L159 | L162 | L167 | L170 | L171 | L172 | L173 | L177
  | L179 | L181 | L183 | L185 | L187
  | L193 | L194_init | L194_cond | L196 | L197 | L194_inc
  | L200 | L202 | L203 | L205
  | L207 | L208_init | L208_cond | L210 | L208_inc
  | L212 | L213 | L214
  | halt | fault
  deriving DecidableEq, Repr

/-- Program state: the globals of `main.c`, the locals of `main`, the record of what the
program did, and the part of the HAL state the receive transfer depends on. -/
structure State where
  pc : PC
  result : Nat
  i : Nat
  tx_data : List Nat
  rx_data : List Nat
  rx_status : Bool
  out : List Event
  mem : List Access
  rx_busy : Bool
  tx_sent : List Nat
  deriving DecidableEq, Repr

/-- State at entry of `main`: the global arrays hold `DATA_SIZE` zero bytes and
`rx_status = 1` (line 69). -/
def init : State :=
  { pc := .L158, result := 0, i := 0,
    tx_data := List.replicate DATA_SIZE 0, rx_data := List.replicate DATA_SIZE 0,
    rx_status := true, out := [], mem := [], rx_busy := false, tx_sent := [] }

/-! ## Helpers for memory and output -/

/-- `buf[i] = v` for a `uint8_t` array; `none` when `i` is outside the array. -/
def store (buf : List Nat) (i v : Nat) : Option (List Nat) :=
  if i < buf.length then some (buf.set i (v % UINT8_MOD)) else none

/-- `memset(buf, v, n)`; `none` when `n` exceeds the array. -/
def memset (buf : List Nat) (v n : Nat) : Option (List Nat) :=
  if n ≤ buf.length then some (List.replicate n (v % UINT8_MOD) ++ buf.drop n) else none

/-- `printf(fmt, args...)`: appends to the console transcript. -/
def printf (fmt : String) (args : List Nat) (s : State) : State :=
  { s with out := s.out ++ [Event.printf fmt args] }

/-- A library call: recorded in the transcript. -/
def call (e : Event) (s : State) : State :=
  { s with out := s.out ++ [e] }

/-! ## The functions of `main.c` -/

/-- Modelled from the spec: `CY_ASSERT` is a macro of the platform library that is not in
the source; a failed assertion is an unconditional halt ("any non-success status triggers
an unconditional halt (assertion failure)").  `none` means execution does not continue. -/
def CY_ASSERT (x : Nat) (s : State) : Option State :=
  if x = 0 then none else some s

/-- `uart_cb` (lines 102-115). -/
def uart_cb (h : Hal) (event : Nat) (s : State) : State :=
  let s1 :=
    if event &&& h.CYHAL_UART_IRQ_TX_DONE = h.CYHAL_UART_IRQ_TX_DONE then
      printf "Tx Completed \r\n" [] s
    else s
  if event &&& h.CYHAL_UART_IRQ_RX_DONE = h.CYHAL_UART_IRQ_RX_DONE then
    printf "Rx Completed \r\n" [] { s1 with rx_status := false }
  else s1

/-- `handle_error` (lines 130-136); `none` means the function does not return. -/
def handle_error (h : Hal) (status : Nat) (s : State) : Option State :=
  if status ≠ h.CY_RSLT_SUCCESS then CY_ASSERT 0 s else some s

/-- One statement of `main` (lines 153-216). -/
def mainStep (h : Hal) (s : State) : State :=
  match s.pc with
  -- result = cybsp_init();
  | .L158 => { call .cybsp_init s with result := h.cybsp_init, pc := .L159 }
  -- handle_error(result);
  | .L159 =>
    match handle_error h s.result s with
    | none => { s with pc := .halt }
    | some s1 => { s1 with pc := .L162 }
  -- result = cy_retarget_io_init_fc(...);
  | .L162 => { call .cy_retarget_io_init_fc s with result := h.cy_retarget_io_init_fc, pc := .L167 }
  -- handle_error(result);
  | .L167 =>
    match handle_error h s.result s with
    | none => { s with pc := .halt }
    | some s1 => { s1 with pc := .L170 }
  | .L170 => { printf "\x1b[2J\x1b[;H" [] s with pc := .L171 }
  | .L171 =>
    { printf "***********************************************************\r\n" [] s with
      pc := .L172 }
  | .L172 => { printf "HAL: UART Transmit and Receive \r\n" [] s with pc := .L173 }
  | .L173 =>
    { printf "***********************************************************\r\n" [] s with
      pc := .L177 }
  -- __enable_irq();
  | .L177 => { call .enable_irq s with pc := .L179 }
  -- cyhal_uart_init(&test_uart, UART_TX, UART_RX, NC, NC, NULL, &uart_config);  result unused
  | .L179 => { call (.cyhal_uart_init uart_config) s with pc := .L181 }
  -- cyhal_uart_set_baud(&test_uart, UART_BAUD_RATE, NULL);  result unused
  | .L181 => { call (.cyhal_uart_set_baud UART_BAUD_RATE) s with pc := .L183 }
  -- cyhal_uart_set_async_mode(&test_uart, CYHAL_ASYNC_DMA, DMA_PRIORITY);  result unused
  | .L183 => { call (.cyhal_uart_set_async_mode .CYHAL_ASYNC_DMA DMA_PRIORITY) s with pc := .L185 }
  -- cyhal_uart_register_callback(&test_uart, (cyhal_uart_event_callback_t)uart_cb, NULL);
  | .L185 => { call (.cyhal_uart_register_callback .uart_cb) s with pc := .L187 }
  -- cyhal_uart_enable_event(&test_uart, RX_DONE | TX_DONE, UART_PRIORITY, true);
  | .L187 =>
    { call (.cyhal_uart_enable_event (h.CYHAL_UART_IRQ_RX_DONE ||| h.CYHAL_UART_IRQ_TX_DONE)
        UART_PRIORITY true) s with pc := .L193 }
  -- while(1) { cyhal_uart_clear(&test_uart);
  | .L193 => { call .cyhal_uart_clear s with pc := .L194_init }
  -- for(uint32_t i = 0;
  | .L194_init => { s with i := 0, mem := s.mem ++ [.loop_init], pc := .L194_cond }
  -- i < DATA_SIZE;
  | .L194_cond => if s.i < DATA_SIZE then { s with pc := .L196 } else { s with pc := .L200 }
  -- tx_data[i] = ('A' + (i));
  | .L196 =>
    match store s.tx_data s.i ((CHAR_A + s.i) % UINT32_MOD) with
    | none => { s with pc := .fault }
    | some buf => { s with tx_data := buf, mem := s.mem ++ [.store .tx_data s.i], pc := .L197 }
  -- rx_data[i] = 0;
  | .L197 =>
    match store s.rx_data s.i 0 with
    | none => { s with pc := .fault }
    | some buf => { s with rx_data := buf, mem := s.mem ++ [.store .rx_data s.i], pc := .L194_inc }
  -- i++)
  | .L194_inc => { s with i := (s.i + 1) % UINT32_MOD, pc := .L194_cond }
  -- cyhal_uart_write_async(&test_uart, &tx_data, DATA_SIZE);
  | .L200 =>
    { call (.cyhal_uart_write_async (s.tx_data.take DATA_SIZE) DATA_SIZE) s with
      tx_sent := s.tx_data.take DATA_SIZE, pc := .L202 }
  -- cyhal_system_delay_ms(1000);
  | .L202 => { call (.cyhal_system_delay_ms 1000) s with pc := .L203 }
  -- cyhal_uart_read_async(&test_uart, &rx_data, DATA_SIZE);
  | .L203 => { call (.cyhal_uart_read_async DATA_SIZE) s with rx_busy := true, pc := .L205 }
  -- while(rx_status) {}
  | .L205 => if s.rx_status then s else { s with pc := .L207 }
  -- printf("The tx data is \t The Rx data is \r\n");
  | .L207 => { printf "The tx data is \t The Rx data is \r\n" [] s with pc := .L208_init }
  -- for(uint32_t i = 0;
  | .L208_init => { s with i := 0, mem := s.mem ++ [.loop_init], pc := .L208_cond }
  -- i < DATA_SIZE;
  | .L208_cond => if s.i < DATA_SIZE then { s with pc := .L210 } else { s with pc := .L212 }
  -- printf("\t %c \t\t %c \r\n", tx_data[i], rx_data[i]);
  | .L210 =>
    match s.tx_data[s.i]?, s.rx_data[s.i]? with
    | some t, some r =>
      { printf "\t %c \t\t %c \r\n" [t, r] s with
        mem := s.mem ++ [.load .tx_data s.i, .load .rx_data s.i], pc := .L208_inc }
    | _, _ => { s with pc := .fault }
  -- i++)
  | .L208_inc => { s with i := (s.i + 1) % UINT32_MOD, pc := .L208_cond }
  -- rx_status = 1;
  | .L212 => { s with rx_status := true, pc := .L213 }
  -- memset(rx_data, 0, sizeof(rx_data));
  | .L213 =>
    match memset s.rx_data 0 DATA_SIZE with
    | none => { s with pc := .fault }
    | some buf => { s with rx_data := buf, mem := s.mem ++ [.memset .rx_data DATA_SIZE], pc := .L214 }
  -- cyhal_system_delay_ms(DELAY_MILLIS); }
  | .L214 => { call (.cyhal_system_delay_ms DELAY_MILLIS) s with pc := .L193 }
  | .halt => s
  | .fault => s

/-! ## Interleaving with the interrupt path and the DMA engine -/

/-- What can happen next: the main thread executes a statement, the HAL invokes the
registered callback with an event mask, or the DMA engine of the receive transfer stores
one byte into the receive buffer. -/
inductive Action
  | main
  | irq (event : Nat)
  | dma (index : Nat) (byte : Nat)
  deriving DecidableEq, Repr

/-- One step of the system.  A callback whose event carries the receive-done bit ends
the receive transfer; the DMA engine stores only while a receive transfer is in flight
and only inside the buffer it was given. -/
def step (h : Hal) (a : Action) (s : State) : State :=
  match a with
  | .main => mainStep h s
  | .irq event =>
    let s1 := uart_cb h event s
    if event &&& h.CYHAL_UART_IRQ_RX_DONE = h.CYHAL_UART_IRQ_RX_DONE then
      { s1 with rx_busy := false }
    else s1
  | .dma k b =>
    if s.rx_busy ∧ k < s.rx_data.length then
      { s with rx_data := s.rx_data.set k (b % UINT8_MOD) }
    else s

/-- Runs a schedule, first action first. -/
def exec (h : Hal) (sched : List Action) (s : State) : State :=
  sched.foldl (fun s a => step h a s) s

/-! ## Vocabulary of the properties -/

/-- The bytes of the text `ABCDEFGHIJKLMNOPQRSTUVWXYZ`. -/
def alphabet : List Nat := "ABCDEFGHIJKLMNOPQRSTUVWXYZ".toList.map Char.toNat

/-- The first `n` bytes of `buf` are `'A' + 0`, `'A' + 1`, ... -/
def txFilled (n : Nat) (buf : List Nat) : Prop := ∀ k, k < n → buf[k]? = some (CHAR_A + k)

/-- The first `n` bytes of `buf` are zero. -/
def rxZeroed (n : Nat) (buf : List Nat) : Prop := ∀ k, k < n → buf[k]? = some 0

/-- Accesses of the fill loop (lines 194-198) from its initialiser up to and including
the pass for index `n - 1`. -/
def fillLog : Nat → List Access
  | 0 => [.loop_init]
  | n + 1 => fillLog n ++ [.store .tx_data n, .store .rx_data n]

/-- Accesses of the report loop (lines 208-211) from its initialiser up to and including
the pass for index `n - 1`. -/
def reportLog : Nat → List Access
  | 0 => [.loop_init]
  | n + 1 => reportLog n ++ [.load .tx_data n, .load .rx_data n]

/-- The statements of the report step (lines 207-211). -/
def PC.inReport : PC → Bool
  | .L207 | .L208_init | .L208_cond | .L210 | .L208_inc => true
  | _ => false

/-- The statements of the transfer loop (lines 190-215). -/
def PC.inLoop : PC → Bool
  | .L193 | .L194_init | .L194_cond | .L196 | .L197 | .L194_inc | .L200 | .L202 | .L203
  | .L205 | .L207 | .L208_init | .L208_cond | .L210 | .L208_inc | .L212 | .L213 | .L214
  | .fault => true
  | _ => false

/-- The head of an iteration of the transfer loop, with buffers of the declared size and
otherwise arbitrary contents. -/
def LoopHead (s : State) : Prop :=
  s.pc = .L193 ∧ s.tx_data.length = DATA_SIZE ∧ s.rx_data.length = DATA_SIZE

/-- Invariant of every execution, whatever the interrupt path and the DMA engine do. -/
def Inv (s : State) : Prop :=
  s.tx_data.length = DATA_SIZE ∧ s.rx_data.length = DATA_SIZE ∧
  match s.pc with
  | .L194_cond => s.i ≤ DATA_SIZE ∧ txFilled s.i s.tx_data ∧ fillLog s.i <:+ s.mem
  | .L196 => s.i < DATA_SIZE ∧ txFilled s.i s.tx_data ∧ fillLog s.i <:+ s.mem
  | .L197 => s.i < DATA_SIZE ∧ txFilled (s.i + 1) s.tx_data ∧
      (fillLog s.i ++ [.store .tx_data s.i]) <:+ s.mem
  | .L194_inc => s.i < DATA_SIZE ∧ txFilled (s.i + 1) s.tx_data ∧ fillLog (s.i + 1) <:+ s.mem
  | .L200 => txFilled DATA_SIZE s.tx_data ∧ fillLog DATA_SIZE <:+ s.mem
  | .L202 | .L203 | .L205 | .L213 | .L214 => txFilled DATA_SIZE s.tx_data
  | .L207 | .L208_init => txFilled DATA_SIZE s.tx_data ∧ s.rx_status = false
  | .L208_cond => txFilled DATA_SIZE s.tx_data ∧ s.rx_status = false ∧ s.i ≤ DATA_SIZE ∧
      reportLog s.i <:+ s.mem
  | .L210 => txFilled DATA_SIZE s.tx_data ∧ s.rx_status = false ∧ s.i < DATA_SIZE ∧
      reportLog s.i <:+ s.mem
  | .L208_inc => txFilled DATA_SIZE s.tx_data ∧ s.rx_status = false ∧ s.i < DATA_SIZE ∧
      reportLog (s.i + 1) <:+ s.mem
  | .L212 => txFilled DATA_SIZE s.tx_data ∧ s.rx_status = false ∧ reportLog DATA_SIZE <:+ s.mem
  | .fault => False
  | _ => True

/-- The action is a store of the DMA engine. -/
def Action.isDma : Action → Bool
  | .dma _ _ => true
  | _ => false

/-- Invariant of the executions in which only the main thread writes the receive buffer. -/
def InvRx (s : State) : Prop :=
  s.rx_data.length = DATA_SIZE ∧
  match s.pc with
  | .L194_cond => s.i ≤ DATA_SIZE ∧ rxZeroed s.i s.rx_data
  | .L196 | .L197 => s.i < DATA_SIZE ∧ rxZeroed s.i s.rx_data
  | .L194_inc => s.i < DATA_SIZE ∧ rxZeroed (s.i + 1) s.rx_data
  | .L200 | .L202 | .L203 => rxZeroed DATA_SIZE s.rx_data
  | _ => True

/-- Every transfer recorded in the transcript was issued with length `DATA_SIZE`, and a
transmit transfer with `DATA_SIZE` bytes. -/
def lengthsOk : List Event → Bool
  | [] => true
  | .cyhal_uart_write_async data n :: rest =>
    decide (n = DATA_SIZE) && decide (data.length = DATA_SIZE) && lengthsOk rest
  | .cyhal_uart_read_async n :: rest => decide (n = DATA_SIZE) && lengthsOk rest
  | _ :: rest => lengthsOk rest

/-- The accesses recorded since the initialiser of a `for` loop last ran. -/
def sinceLoopInit (mem : List Access) : List Access :=
  (mem.reverse.takeWhile (fun a => decide (a ≠ Access.loop_init))).reverse

/-- The indices of the stores into buffer `b`, in order. -/
def storeIndices (b : Buf) (log : List Access) : List Nat :=
  log.filterMap fun a =>
    match a with
    | .store c k => if c = b then some k else none
    | _ => none

/-- The indices of the loads from buffer `b`, in order. -/
def loadIndices (b : Buf) (log : List Access) : List Nat :=
  log.filterMap fun a =>
    match a with
    | .load c k => if c = b then some k else none
    | _ => none

/-! ### The HAL contract used for the receive window -/

/-- What a HAL that signals receive-done only for a receive transfer in flight may do in
state `s`: any callback without the receive-done bit, a callback with the receive-done bit
only while a receive transfer is in flight; the main thread and the DMA engine (which
`step` already confines to a transfer in flight) are not restricted. -/
def allowed (h : Hal) (s : State) : Action → Bool
  | .main => true
  | .irq event =>
    if event &&& h.CYHAL_UART_IRQ_RX_DONE = h.CYHAL_UART_IRQ_RX_DONE then s.rx_busy else true
  | .dma _ _ => true

/-- Every action of the schedule is allowed in the state it is taken in. -/
def conforms (h : Hal) : List Action → State → Bool
  | [], _ => true
  | a :: rest, s => allowed h s a && conforms h rest (step h a s)

/-- Statements at which the main thread has consumed the previous receive-done signal and
has not yet issued the next receive transfer. -/
def PC.quiet : PC → Bool
  | .L205 | .L207 | .L208_init | .L208_cond | .L210 | .L208_inc | .L212 | .fault => false
  | _ => true

/-- Invariant of the executions that conform to the HAL contract. -/
def InvHal (s : State) : Prop :=
  (s.rx_busy = true → s.pc = .L205 ∧ s.rx_status = true) ∧
  (s.pc.quiet = true → s.rx_status = true)

/-- A start state for the receive window: program entry, or the head of an iteration
with the flag set and no receive transfer in flight. -/
def QuietStart (s : State) : Prop :=
  s = init ∨ (LoopHead s ∧ s.rx_status = true ∧ s.rx_busy = false)

/-! ### The setup sequence -/

/-- Every setup call of `main` reports `CY_RSLT_SUCCESS`. -/
def allSucceed (h : Hal) : Prop :=
  h.cybsp_init = h.CY_RSLT_SUCCESS ∧ h.cy_retarget_io_init_fc = h.CY_RSLT_SUCCESS ∧
  h.cyhal_uart_init = h.CY_RSLT_SUCCESS ∧ h.cyhal_uart_set_baud = h.CY_RSLT_SUCCESS ∧
  h.cyhal_uart_set_async_mode = h.CY_RSLT_SUCCESS ∧
  h.cyhal_uart_enable_event = h.CY_RSLT_SUCCESS

/-- Calls into the BSP, retarget-io and the UART configuration interface of the HAL
(console output, the CPU intrinsic `__enable_irq` and the calls of the transfer loop are
not setup calls). -/
def Event.isSetupCall : Event → Bool
  | .cybsp_init | .cy_retarget_io_init_fc | .cyhal_uart_init _ | .cyhal_uart_set_baud _
  | .cyhal_uart_set_async_mode _ _ | .cyhal_uart_register_callback _
  | .cyhal_uart_enable_event _ _ _ => true
  | _ => false

/-- The two asynchronous transfers. -/
def Event.isTransfer : Event → Bool
  | .cyhal_uart_write_async _ _ | .cyhal_uart_read_async _ => true
  | _ => false

/-- The setup calls of lines 158-187 with their arguments, in source order. -/
def setupSequence (h : Hal) : List Event :=
  [ .cybsp_init, .cy_retarget_io_init_fc, .cyhal_uart_init uart_config,
    .cyhal_uart_set_baud UART_BAUD_RATE,
    .cyhal_uart_set_async_mode .CYHAL_ASYNC_DMA DMA_PRIORITY,
    .cyhal_uart_register_callback .uart_cb,
    .cyhal_uart_enable_event (h.CYHAL_UART_IRQ_RX_DONE ||| h.CYHAL_UART_IRQ_TX_DONE)
      UART_PRIORITY true ]

/-- Number of setup calls already made when the statement at `pc` is about to run. -/
def setupDone : PC → Nat
  | .L158 => 0
  | .L159 | .L162 => 1
  | .L167 | .L170 | .L171 | .L172 | .L173 | .L177 | .L179 => 2
  | .L181 => 3
  | .L183 => 4
  | .L185 => 5
  | .L187 => 6
  | _ => 7

/-- The part of the transcript that precedes the first transfer. -/
def beforeFirstTransfer (out : List Event) : List Event :=
  out.takeWhile (fun e => !e.isTransfer)

/-- Invariant of the executions in which the two checked setup calls succeed. -/
def InvSetup (h : Hal) (s : State) : Prop :=
  s.pc ≠ .halt ∧
  (s.pc = .L159 → s.result = h.cybsp_init) ∧
  (s.pc = .L167 → s.result = h.cy_retarget_io_init_fc) ∧
  s.out.filter Event.isSetupCall = (setupSequence h).take (setupDone s.pc) ∧
  (s.pc.inLoop = false → s.out.all (fun e => !e.isTransfer) = true) ∧
  (s.pc.inLoop = true →
    (beforeFirstTransfer s.out).filter Event.isSetupCall = setupSequence h)

/-- Invariant of the executions in which one of the two checked setup calls fails:
`main` gets no further than the `handle_error` that follows the failing call. -/
def InvFatal (h : Hal) (s : State) : Prop :=
  s.out.all (fun e => !e.isTransfer) = true ∧
  match s.pc with
  | .L158 => True
  | .L159 => s.result = h.cybsp_init
  | .L162 => h.cybsp_init = h.CY_RSLT_SUCCESS
  | .L167 => h.cybsp_init = h.CY_RSLT_SUCCESS ∧ s.result = h.cy_retarget_io_init_fc
  | .halt => True
  | _ => False

/-! ### Loopback -/

/-- Modelled from the spec: the HAL and the wire are not part of the source.  With TX
wired to RX, the receive transfer issued by `cyhal_uart_read_async` stores into `rx_data`
exactly the bytes submitted by `cyhal_uart_write_async` in the same iteration, in order,
and then the HAL signals receive-done. -/
def loopback_complete (h : Hal) (s : State) : List Action :=
  List.zipWith Action.dma (List.range s.tx_sent.length) s.tx_sent ++
    [Action.irq h.CYHAL_UART_IRQ_RX_DONE]

/-- The receive buffer after the stores of the DMA engine in a schedule, given whether a
receive transfer is in flight (the main thread and the callback do not write it). -/
def dmaWrites (busy : Bool) : List Action → List Nat → List Nat
  | [], rx => rx
  | .dma k b :: rest, rx =>
    dmaWrites busy rest (if busy = true ∧ k < rx.length then rx.set k (b % UINT8_MOD) else rx)
  | _ :: rest, rx => dmaWrites busy rest rx

/-- One step of the program on a loopback wire: when the main thread waits at line 205
for a receive transfer in flight, the transfer completes; otherwise the main thread
executes its next statement. -/
def loopback_step (h : Hal) (s : State) : State :=
  if s.pc = .L205 ∧ s.rx_busy = true then exec h (loopback_complete h s) s else mainStep h s

/-- Runs `n` steps on a loopback wire. -/
def loopback_run (h : Hal) : Nat → State → State
  | 0, s => s
  | n + 1, s => loopback_run h n (loopback_step h s)

/-- Steps from the head of an iteration to its report step on a loopback wire:
`cyhal_uart_clear`, the fill loop, the two transfers with the delay between them, the
completion of the receive transfer, and the exit from the wait loop. -/
def STEPS_TO_REPORT : Nat := 2 + (4 * DATA_SIZE + 1) + 3 + 1 + 1

/-- Steps of one complete iteration on a loopback wire. -/
def STEPS_PER_CYCLE : Nat := STEPS_TO_REPORT + 2 + (3 * DATA_SIZE + 1) + 3

/-! ### Concrete platforms used to run the model -/

/-- A platform on which every setup call succeeds.  The numeric values are those of the
PSoC HAL headers (`CY_RSLT_SUCCESS = 0`, `CYHAL_UART_IRQ_TX_DONE = 1 << 2`,
`CYHAL_UART_IRQ_RX_DONE = 1 << 5`). -/
def psoc : Hal :=
  { CY_RSLT_SUCCESS := 0
    CYHAL_UART_IRQ_TX_DONE := 4
    CYHAL_UART_IRQ_RX_DONE := 32
    cybsp_init := 0
    cy_retarget_io_init_fc := 0
    cyhal_uart_init := 0
    cyhal_uart_set_baud := 0
    cyhal_uart_set_async_mode := 0
    cyhal_uart_enable_event := 0 }

/-- The same platform with `cyhal_uart_init` reporting a failure status. -/
def psoc_uart_init_fails : Hal := { psoc with cyhal_uart_init := 1 }

/-- The same platform with `cybsp_init` reporting a failure status. -/
def psoc_bsp_fails : Hal := { psoc with cybsp_init := 1 }

/-- Schedule in which only the main thread runs, for `n` statements. -/
def mainOnly (n : Nat) : List Action := List.replicate n Action.main

/-- Steps of the main thread from program entry to the head of the first iteration. -/
def STEPS_SETUP : Nat := 14

/-- Steps of the main thread from the head of an iteration to the call of
`cyhal_uart_write_async` (line 200). -/
def STEPS_TO_WRITE : Nat := 2 + (4 * DATA_SIZE + 1)

/-- Steps of the main thread for the report step and the rest of an iteration, counted
from the exit of the wait loop: the header line, the report loop, the reset of the flag,
`memset` and the delay. -/
def STEPS_AFTER_WAIT : Nat := 2 + (3 * DATA_SIZE + 1) + 3

/-- A schedule that runs setup and the first iteration up to the wait loop, lets the DMA
engine store a byte and the HAL signal both events, and runs the main thread on through
the report into the second iteration, up to its call of `cyhal_uart_write_async`. -/
def toSecondWrite : List Action :=
  mainOnly (STEPS_SETUP + STEPS_TO_WRITE + 3) ++ [Action.dma 0 255, Action.irq 36] ++
    mainOnly (1 + STEPS_AFTER_WAIT) ++ mainOnly STEPS_TO_WRITE

/-- A schedule that runs setup and the first iteration up to the wait loop, signals
receive-done, and runs the main thread to the end of the report loop (line 212). -/
def toFlagReset : List Action :=
  mainOnly (STEPS_SETUP + STEPS_TO_WRITE + 3) ++ [Action.irq 32] ++
    mainOnly (1 + 2 + (3 * DATA_SIZE + 1))

/-- The head of an iteration with stale contents in both buffers. -/
def staleLoopHead : State :=
  { init with
    pc := .L193, tx_data := List.replicate DATA_SIZE 7, rx_data := List.replicate DATA_SIZE 255 }

/-- A schedule that runs one iteration from its head to the call of
`cyhal_uart_read_async`, with a transmit-done signal during the delay. -/
def toRead : List Action :=
  mainOnly (STEPS_TO_WRITE + 1) ++ [Action.irq 4] ++ mainOnly 1

/-- A schedule that runs setup and the first iteration into the wait loop and lets the
DMA engine store one byte of the receive transfer. -/
def toReceiveInFlight : List Action :=
  mainOnly (STEPS_SETUP + STEPS_TO_WRITE + 3) ++ [Action.dma 0 255]

/-- The head of the first iteration on a platform where every setup call succeeds. -/
def firstLoopHead : State := exec psoc (mainOnly STEPS_SETUP) init

/-- Steps from the head of an iteration to the end of its report loop (line 212) on a
loopback wire. -/
def STEPS_TO_RESET : Nat := STEPS_TO_REPORT + 2 + (3 * DATA_SIZE + 1)

/-! ## Theorems -/

/-! ### Running schedules -/

theorem exec_nil (h : Hal) (s : State) : exec h [] s = s := rfl

theorem exec_cons (h : Hal) (a : Action) (sched : List Action) (s : State) :
    exec h (a :: sched) s = exec h sched (step h a s) := rfl

theorem exec_append (h : Hal) (s1 s2 : List Action) (s : State) :
    exec h (s1 ++ s2) s = exec h s2 (exec h s1 s) := by
  simp [exec, List.foldl_append]

/-- A property kept by every permitted action holds after every schedule of permitted
actions. -/
theorem exec_invariant (h : Hal) (P : State → Prop) (ok : Action → Prop)
    (hstep : ∀ a s, ok a → P s → P (step h a s)) :
    ∀ (sched : List Action) (s : State), (∀ a ∈ sched, ok a) → P s → P (exec h sched s) := by
  intro sched
  induction sched with
  | nil => intro s _ hs; exact hs
  | cons a rest ih =>
    intro s hok hs
    rw [exec_cons]
    exact ih _ (fun b hb => hok b (List.mem_cons_of_mem a hb))
      (hstep a s (hok a (List.mem_cons_self a rest)) hs)

/-- A property kept by every action holds after every schedule. -/
theorem exec_invariant_all (h : Hal) (P : State → Prop)
    (hstep : ∀ a s, P s → P (step h a s)) (sched : List Action) (s : State) (hs : P s) :
    P (exec h sched s) :=
  exec_invariant h P (fun _ => True) (fun a s _ hp => hstep a s hp) sched s
    (fun _ _ => trivial) hs

/-- A property kept by every action the HAL contract allows holds after every
conforming schedule. -/
theorem exec_invariant_conforms (h : Hal) (P : State → Prop)
    (hstep : ∀ a s, allowed h s a = true → P s → P (step h a s)) :
    ∀ (sched : List Action) (s : State), conforms h sched s = true → P s →
      P (exec h sched s) := by
  intro sched
  induction sched with
  | nil => intro s _ hs; exact hs
  | cons a rest ih =>
    intro s hc hs
    rw [exec_cons]
    simp only [conforms, Bool.and_eq_true] at hc
    exact ih _ hc.2 (hstep a s hc.1 hs)

/-! ### The callback and the error handler -/

/-- The complete effect of `uart_cb`: the flag and the console transcript. -/
theorem uart_cb_eq (h : Hal) (event : Nat) (s : State) :
    uart_cb h event s =
      { s with
        rx_status :=
          if event &&& h.CYHAL_UART_IRQ_RX_DONE = h.CYHAL_UART_IRQ_RX_DONE then false
          else s.rx_status
        out := s.out ++
          ((if event &&& h.CYHAL_UART_IRQ_TX_DONE = h.CYHAL_UART_IRQ_TX_DONE then
              [Event.printf "Tx Completed \r\n" []] else []) ++
           (if event &&& h.CYHAL_UART_IRQ_RX_DONE = h.CYHAL_UART_IRQ_RX_DONE then
              [Event.printf "Rx Completed \r\n" []] else [])) } := by
  unfold uart_cb printf
  split_ifs <;> simp

/-- C3: for every event mask and every prior state, `uart_cb` leaves `rx_status` false
when the receive-done bit is set in the event and unchanged when it is not (in particular
for an event that carries only the transmit-done bit, when that bit does not contain the
receive-done bit); it never turns `rx_status` from false to true; and it changes nothing
else of the program state (`tx_data`, `rx_data`, the locals and position of `main`, the
buffer accesses, the HAL side) except that it appends its log lines to the console
transcript. -/
theorem uart_cb_only_clears_rx_status (h : Hal) (event : Nat) (s : State) :
    (uart_cb h event s).rx_status =
        (if event &&& h.CYHAL_UART_IRQ_RX_DONE = h.CYHAL_UART_IRQ_RX_DONE then false
         else s.rx_status) ∧
      (h.CYHAL_UART_IRQ_TX_DONE &&& h.CYHAL_UART_IRQ_RX_DONE ≠ h.CYHAL_UART_IRQ_RX_DONE →
        (uart_cb h h.CYHAL_UART_IRQ_TX_DONE s).rx_status = s.rx_status) ∧
      (s.rx_status = false → (uart_cb h event s).rx_status = false) ∧
      (uart_cb h event s).tx_data = s.tx_data ∧
      (uart_cb h event s).rx_data = s.rx_data ∧
      (uart_cb h event s).pc = s.pc ∧
      (uart_cb h event s).result = s.result ∧
      (uart_cb h event s).i = s.i ∧
      (uart_cb h event s).mem = s.mem ∧
      (uart_cb h event s).rx_busy = s.rx_busy ∧
      (uart_cb h event s).tx_sent = s.tx_sent ∧
      (uart_cb h event s).out = s.out ++
        ((if event &&& h.CYHAL_UART_IRQ_TX_DONE = h.CYHAL_UART_IRQ_TX_DONE then
            [Event.printf "Tx Completed \r\n" []] else []) ++
         (if event &&& h.CYHAL_UART_IRQ_RX_DONE = h.CYHAL_UART_IRQ_RX_DONE then
            [Event.printf "Rx Completed \r\n" []] else [])) := by
  rw [uart_cb_eq, uart_cb_eq]
  refine ⟨rfl, ?_, ?_, rfl, rfl, rfl, rfl, rfl, rfl, rfl, rfl, rfl⟩
  · intro hne
    simp [hne]
  · intro hf
    simp [hf]

/-- C7: `handle_error status` does not return (it reaches `CY_ASSERT(0)`, which halts)
exactly when `status` differs from `CY_RSLT_SUCCESS`; for `CY_RSLT_SUCCESS` it returns and
leaves the program state as it was. -/
theorem handle_error_halts_iff_not_success (h : Hal) (status : Nat) (s : State) :
    (handle_error h status s = none ↔ status ≠ h.CY_RSLT_SUCCESS) ∧
      handle_error h h.CY_RSLT_SUCCESS s = some s := by
  constructor
  · by_cases hs : status = h.CY_RSLT_SUCCESS <;> simp [handle_error, CY_ASSERT, hs]
  · simp [handle_error]

/-! ### Buffers -/

theorem suffix_snoc {α : Type} (l1 l2 x : List α) (hl : l1 <:+ l2) :
    (l1 ++ x) <:+ (l2 ++ x) := by
  obtain ⟨t, ht⟩ := hl
  exact ⟨t, by rw [← ht, List.append_assoc]⟩

theorem store_in_bounds (buf : List Nat) (i v : Nat) (hi : i < buf.length) :
    store buf i v = some (buf.set i (v % UINT8_MOD)) := by
  simp [store, hi]

theorem txFilled_set (buf : List Nat) (i : Nat) (hi : i < DATA_SIZE) (hlen : i < buf.length)
    (hf : txFilled i buf) :
    txFilled (i + 1) (buf.set i ((CHAR_A + i) % UINT32_MOD % UINT8_MOD)) := by
  intro k hk
  by_cases hki : k = i
  · subst hki
    simp only [List.getElem?_set_self, hlen, List.getElem?_eq_getElem, List.length_set,
      List.getElem_set_self, Option.some.injEq]
    simp only [DATA_SIZE, CHAR_A, UINT32_MOD, UINT8_MOD] at *
    omega
  · rw [List.getElem?_set_ne (fun e => hki e.symm)]
    exact hf k (by omega)

theorem rxZeroed_set (buf : List Nat) (i : Nat) (hlen : i < buf.length)
    (hf : rxZeroed i buf) : rxZeroed (i + 1) (buf.set i (0 % UINT8_MOD)) := by
  intro k hk
  by_cases hki : k = i
  · subst hki
    simp [List.getElem?_set_self, hlen, UINT8_MOD]
  · rw [List.getElem?_set_ne (fun e => hki e.symm)]
    exact hf k (by omega)

theorem alphabet_eq :
    alphabet = [65, 66, 67, 68, 69, 70, 71, 72, 73, 74, 75, 76, 77, 78, 79, 80, 81, 82, 83, 84,
      85, 86, 87, 88, 89, 90] := by
  decide

/-- A buffer of the declared size whose bytes are `'A' + k` is the alphabet. -/
theorem txFilled_alphabet (buf : List Nat) (hlen : buf.length = DATA_SIZE)
    (hf : txFilled DATA_SIZE buf) : buf = alphabet := by
  apply List.ext_getElem?
  intro k
  by_cases hk : k < DATA_SIZE
  · rw [hf k hk, alphabet_eq]
    simp only [DATA_SIZE, CHAR_A] at *
    interval_cases k <;> rfl
  · rw [List.getElem?_eq_none (by omega), List.getElem?_eq_none]
    rw [alphabet_eq]
    simp only [DATA_SIZE] at hk
    simp only [List.length_cons, List.length_nil]
    omega

/-- A buffer of the declared size whose bytes are zero is the zero buffer. -/
theorem rxZeroed_replicate (buf : List Nat) (hlen : buf.length = DATA_SIZE)
    (hf : rxZeroed DATA_SIZE buf) : buf = List.replicate DATA_SIZE 0 := by
  apply List.ext_getElem?
  intro k
  by_cases hk : k < DATA_SIZE
  · rw [hf k hk, List.getElem?_replicate]
    simp [hk]
  · rw [List.getElem?_eq_none (by omega), List.getElem?_eq_none]
    simp only [List.length_replicate]
    omega

/-! ### The invariant of every execution -/

theorem Inv_mainStep (h : Hal) (s : State) (hs : Inv s) : Inv (mainStep h s) := by
  obtain ⟨pc, result, i, tx, rx, st, out, mem, busy, sent⟩ := s
  obtain ⟨h1, h2, h3⟩ := hs
  simp only at h1 h2 h3
  cases pc <;> simp only [mainStep, Inv, call, printf, handle_error, CY_ASSERT] at h3 ⊢
  all_goals (try (first | (split <;> simp_all [Inv]; done) | (simp_all [Inv]; done)))
  case L159 => by_cases hr : result = h.CY_RSLT_SUCCESS <;> simp [hr, h1, h2]
  case L167 => by_cases hr : result = h.CY_RSLT_SUCCESS <;> simp [hr, h1, h2]
  case L194_init =>
    exact ⟨h1, h2, Nat.zero_le _, fun k hk => absurd hk (Nat.not_lt_zero k),
      List.suffix_append _ _⟩
  case L194_cond =>
    obtain ⟨hi, hf, hm⟩ := h3
    by_cases hlt : i < DATA_SIZE
    · simp [hlt, h1, h2, hf, hm]
    · have : i = DATA_SIZE := by omega
      subst this
      simp [h1, h2, hf, hm]
  case L196 =>
    obtain ⟨hi, hf, hm⟩ := h3
    rw [store_in_bounds tx i _ (by omega)]
    exact ⟨by simpa using h1, h2, hi, txFilled_set tx i hi (by omega) hf, suffix_snoc _ _ _ hm⟩
  case L197 =>
    obtain ⟨hi, hf, hm⟩ := h3
    rw [store_in_bounds rx i _ (by omega)]
    refine ⟨h1, by simpa using h2, hi, hf, ?_⟩
    have := suffix_snoc _ _ [Access.store Buf.rx_data i] hm
    simpa [fillLog] using this
  case L194_inc =>
    obtain ⟨hi, hf, hm⟩ := h3
    have hmod : (i + 1) % UINT32_MOD = i + 1 := by
      simp only [DATA_SIZE, UINT32_MOD] at *
      omega
    simp only [hmod]
    exact ⟨h1, h2, hi, hf, hm⟩
  case L208_init =>
    obtain ⟨hf, hst⟩ := h3
    exact ⟨h1, h2, hf, hst, Nat.zero_le _, List.suffix_append _ _⟩
  case L208_cond =>
    obtain ⟨hf, hst, hi, hm⟩ := h3
    by_cases hlt : i < DATA_SIZE
    · simp [hlt, h1, h2, hf, hm, hst]
    · have : i = DATA_SIZE := by omega
      subst this
      simp [h1, h2, hf, hm, hst]
  case L210 =>
    obtain ⟨hf, hst, hi, hm⟩ := h3
    have e1 : tx[i]? = some tx[i] := List.getElem?_eq_getElem (by omega)
    have e2 : rx[i]? = some rx[i] := List.getElem?_eq_getElem (by omega)
    rw [e1, e2]
    refine ⟨h1, h2, hf, hst, hi, ?_⟩
    have := suffix_snoc _ _ [Access.load Buf.tx_data i, Access.load Buf.rx_data i] hm
    simpa [reportLog] using this
  case L208_inc =>
    obtain ⟨hf, hst, hi, hm⟩ := h3
    have hmod : (i + 1) % UINT32_MOD = i + 1 := by
      simp only [DATA_SIZE, UINT32_MOD] at *
      omega
    simp only [hmod]
    exact ⟨h1, h2, hf, hst, hi, hm⟩
  case L213 =>
    have hm : memset rx 0 DATA_SIZE =
        some (List.replicate DATA_SIZE (0 % UINT8_MOD) ++ rx.drop DATA_SIZE) := by
      simp [memset, h2]
    rw [hm]
    refine ⟨h1, ?_, h3⟩
    simp [h2]

/-- The invariant reads the position, the counter, the buffers and the access record, and
asks of the flag only that it be clear during the report. -/
theorem Inv_of_fields (s t : State) (hpc : t.pc = s.pc) (hi : t.i = s.i)
    (htx : t.tx_data = s.tx_data) (hrx : t.rx_data.length = s.rx_data.length)
    (hmem : t.mem = s.mem) (hst : s.rx_status = false → t.rx_status = false)
    (hs : Inv s) : Inv t := by
  obtain ⟨pc, result, i, tx, rx, st, out, mem, busy, sent⟩ := s
  obtain ⟨pc1, result1, i1, tx1, rx1, st1, out1, mem1, busy1, sent1⟩ := t
  simp only at hpc hi htx hrx hmem hst
  subst hpc hi htx hmem
  obtain ⟨h1, h2, h3⟩ := hs
  simp only at h1 h2 h3
  refine ⟨h1, by simpa [hrx] using h2, ?_⟩
  cases pc1 <;> simp only [Inv] at h3 ⊢ <;> simp_all

theorem Inv_irq (h : Hal) (event : Nat) (s : State) (hs : Inv s) :
    Inv (step h (.irq event) s) := by
  apply Inv_of_fields s _ _ _ _ _ _ _ hs <;> simp only [step, uart_cb_eq] <;> split_ifs <;> simp

theorem Inv_dma (h : Hal) (k b : Nat) (s : State) (hs : Inv s) :
    Inv (step h (.dma k b) s) := by
  obtain ⟨pc, result, i, tx, rx, st, out, mem, busy, sent⟩ := s
  obtain ⟨h1, h2, h3⟩ := hs
  simp only at h1 h2 h3
  simp only [step]
  split_ifs
  · exact ⟨h1, by simpa using h2, h3⟩
  · exact ⟨h1, h2, h3⟩

theorem Inv_step (h : Hal) (a : Action) (s : State) (hs : Inv s) : Inv (step h a s) := by
  cases a with
  | main => exact Inv_mainStep h s hs
  | irq event => exact Inv_irq h event s hs
  | dma k b => exact Inv_dma h k b s hs

theorem Inv_init : Inv init := by
  simp [Inv, init]

theorem Inv_LoopHead (s : State) (hs : LoopHead s) : Inv s := by
  obtain ⟨hpc, h1, h2⟩ := hs
  refine ⟨h1, h2, ?_⟩
  rw [hpc]
  trivial

theorem Inv_exec (h : Hal) (s0 : State) (hs0 : s0 = init ∨ LoopHead s0) (sched : List Action) :
    Inv (exec h sched s0) := by
  apply exec_invariant_all h Inv (Inv_step h)
  rcases hs0 with rfl | hl
  · exact Inv_init
  · exact Inv_LoopHead s0 hl

/-! ### The access record -/

theorem sinceLoopInit_snoc (l : List Access) (a : Access) :
    sinceLoopInit (l ++ [a]) = if a = Access.loop_init then [] else sinceLoopInit l ++ [a] := by
  unfold sinceLoopInit
  rw [List.reverse_append, List.reverse_singleton, List.singleton_append, List.takeWhile_cons]
  by_cases ha : a = Access.loop_init <;> simp [ha]

theorem sinceLoopInit_fillLog (t : List Access) (n : Nat) :
    storeIndices .tx_data (sinceLoopInit (t ++ fillLog n)) = List.range n ∧
      storeIndices .rx_data (sinceLoopInit (t ++ fillLog n)) = List.range n := by
  induction n with
  | zero => simp [fillLog, sinceLoopInit_snoc, storeIndices]
  | succ n ih =>
    have e : t ++ fillLog (n + 1) =
        ((t ++ fillLog n) ++ [Access.store .tx_data n]) ++ [Access.store .rx_data n] := by
      simp [fillLog]
    rw [e, sinceLoopInit_snoc, sinceLoopInit_snoc]
    simp only [reduceCtorEq, if_false, storeIndices, List.filterMap_append] at ih ⊢
    rw [ih.1, ih.2, List.range_succ]
    simp

theorem sinceLoopInit_reportLog (t : List Access) (n : Nat) :
    loadIndices .tx_data (sinceLoopInit (t ++ reportLog n)) = List.range n ∧
      loadIndices .rx_data (sinceLoopInit (t ++ reportLog n)) = List.range n := by
  induction n with
  | zero => simp [reportLog, sinceLoopInit_snoc, loadIndices]
  | succ n ih =>
    have e : t ++ reportLog (n + 1) =
        ((t ++ reportLog n) ++ [Access.load .tx_data n]) ++ [Access.load .rx_data n] := by
      simp [reportLog]
    rw [e, sinceLoopInit_snoc, sinceLoopInit_snoc]
    simp only [reduceCtorEq, if_false, loadIndices, List.filterMap_append] at ih ⊢
    rw [ih.1, ih.2, List.range_succ]
    simp

/-! ### The transcript -/

theorem handle_error_eq (h : Hal) (status : Nat) (s : State) :
    handle_error h status s = if status = h.CY_RSLT_SUCCESS then some s else none := by
  by_cases hs : status = h.CY_RSLT_SUCCESS <;> simp [handle_error, CY_ASSERT, hs]


theorem lengthsOk_append (l1 l2 : List Event) :
    lengthsOk (l1 ++ l2) = (lengthsOk l1 && lengthsOk l2) := by
  induction l1 with
  | nil => simp [lengthsOk]
  | cons e l ih => cases e <;> simp [lengthsOk, ih, Bool.and_assoc]

theorem lengthsOk_mainStep (h : Hal) (s : State) (hs : Inv s) (ho : lengthsOk s.out = true) :
    lengthsOk (mainStep h s).out = true := by
  obtain ⟨pc, result, i, tx, rx, st, out, mem, busy, sent⟩ := s
  obtain ⟨h1, h2, h3⟩ := hs
  simp only at h1 h2 h3 ho
  cases pc <;> simp only [mainStep, call, printf, handle_error_eq]
  case L159 => split_ifs <;> exact ho
  case L167 => split_ifs <;> exact ho
  all_goals (try split) <;> simp_all [lengthsOk_append, lengthsOk]

theorem lengthsOk_step (h : Hal) (a : Action) (s : State) (hs : Inv s)
    (ho : lengthsOk s.out = true) : lengthsOk (step h a s).out = true := by
  cases a with
  | main => exact lengthsOk_mainStep h s hs ho
  | irq event =>
    simp only [step, uart_cb_eq]
    split_ifs <;> simp_all [lengthsOk_append, lengthsOk]
  | dma k b =>
    simp only [step]
    split_ifs <;> exact ho

theorem lengthsOk_exec (h : Hal) (sched : List Action) :
    Inv (exec h sched init) ∧ lengthsOk (exec h sched init).out = true := by
  apply exec_invariant_all h (fun s => Inv s ∧ lengthsOk s.out = true)
  · intro a s hs
    exact ⟨Inv_step h a s hs.1, lengthsOk_step h a s hs.1 hs.2⟩
  · exact ⟨Inv_init, rfl⟩

/-! ### C1, C4, C9 -/

/-- C1: in every iteration of the transfer loop, whatever the buffers held when the
iteration began and whatever the interrupt path and the DMA engine did meanwhile, at the
moment `cyhal_uart_write_async` is called (line 200) `tx_data[i]` is the byte `65 + i`
itself (no reduction modulo 256) for every `i < 26`: the buffer spells
`ABCDEFGHIJKLMNOPQRSTUVWXYZ`, and that is what the call submits. -/
theorem tx_data_is_alphabet_at_write_async (h : Hal) (s0 : State)
    (hs0 : s0 = init ∨ LoopHead s0) (sched : List Action)
    (hpc : (exec h sched s0).pc = .L200) :
    (∀ i, i < 26 → (exec h sched s0).tx_data[i]? = some (65 + i)) ∧
      String.mk ((exec h sched s0).tx_data.map Char.ofNat) = "ABCDEFGHIJKLMNOPQRSTUVWXYZ" ∧
      (mainStep h (exec h sched s0)).out =
        (exec h sched s0).out ++
          [Event.cyhal_uart_write_async
            [65, 66, 67, 68, 69, 70, 71, 72, 73, 74, 75, 76, 77, 78, 79, 80, 81, 82, 83, 84,
              85, 86, 87, 88, 89, 90] 26] := by
  have hinv := Inv_exec h s0 hs0 sched
  obtain ⟨h1, _, h3⟩ := hinv
  rw [hpc] at h3
  have hf : txFilled DATA_SIZE (exec h sched s0).tx_data := h3.1
  have ha := txFilled_alphabet _ h1 hf
  refine ⟨hf, ?_, ?_⟩
  · rw [ha, alphabet_eq]
    decide
  · simp only [mainStep, hpc, call]
    rw [ha, alphabet_eq]
    rfl

set_option maxRecDepth 100000 in
/-- Witness for C1: the second iteration of the transfer loop reaches line 200 after the
DMA engine and the interrupt path have run, and the transmit buffer spells the alphabet
there. -/
theorem tx_data_is_alphabet_at_write_async_witness :
    (exec psoc toSecondWrite init).pc = .L200 ∧
      String.mk ((exec psoc toSecondWrite init).tx_data.map Char.ofNat) =
        "ABCDEFGHIJKLMNOPQRSTUVWXYZ" :=
  ⟨by decide,
    (tx_data_is_alphabet_at_write_async psoc init (Or.inl rfl) toSecondWrite (by decide)).2.1⟩

/-- C4: in every iteration of the transfer loop, whatever the interrupt path and the DMA
engine do, every statement of the report step (lines 207-211) is reached only in a state
where `rx_status` is false, and the wait loop of line 205 is left only on reading
`rx_status` as false; when the report loop has printed its last row the next statement of
`main` is line 212, which sets `rx_status` back to true and does nothing else, and only
then come the `memset` of line 213, the delay and the next iteration. -/
theorem report_sees_flag_clear_then_resets_it (h : Hal) (s0 : State)
    (hs0 : s0 = init ∨ LoopHead s0) (sched : List Action) :
    ((exec h sched s0).pc.inReport = true → (exec h sched s0).rx_status = false) ∧
      ((exec h sched s0).pc = .L205 → (mainStep h (exec h sched s0)).pc ≠ .L205 →
        (exec h sched s0).rx_status = false ∧ (mainStep h (exec h sched s0)).pc = .L207) ∧
      ((exec h sched s0).pc = .L208_cond → ¬ (exec h sched s0).i < DATA_SIZE →
        mainStep h (exec h sched s0) = { exec h sched s0 with pc := .L212 }) ∧
      ((exec h sched s0).pc = .L212 →
        (exec h sched s0).rx_status = false ∧
        mainStep h (exec h sched s0) = { exec h sched s0 with rx_status := true, pc := .L213 } ∧
        (mainStep h (mainStep h (exec h sched s0))).rx_status = true ∧
        (mainStep h (mainStep h (exec h sched s0))).pc = .L214) := by
  have hinv := Inv_exec h s0 hs0 sched
  generalize exec h sched s0 = s at hinv
  obtain ⟨pc, result, i, tx, rx, st, out, mem, busy, sent⟩ := s
  obtain ⟨h1, h2, h3⟩ := hinv
  simp only at h1 h2 h3
  refine ⟨?_, ?_, ?_, ?_⟩
  · intro hp
    cases pc <;> simp only [PC.inReport, Bool.false_eq_true] at hp <;>
      simp only [Inv] at h3 <;> simp [h3]
  · intro hp
    simp only at hp
    subst hp
    cases st <;> simp [mainStep]
  · intro hp hi
    simp only at hp hi
    subst hp
    simp [mainStep, hi]
  · intro hp
    simp only at hp
    subst hp
    simp only [Inv] at h3
    simp [mainStep, h3.2.1, memset, h2]

set_option maxRecDepth 100000 in
/-- Witness for C4: after a receive-done signal the main thread runs through the report
to line 212 with the flag clear, and line 212 sets it. -/
theorem report_sees_flag_clear_then_resets_it_witness :
    (exec psoc toFlagReset init).pc = .L212 ∧
      (exec psoc toFlagReset init).rx_status = false ∧
      (mainStep psoc (exec psoc toFlagReset init)).rx_status = true :=
  ⟨by decide,
    ((report_sees_flag_clear_then_resets_it psoc init (Or.inl rfl) toFlagReset).2.2.2
      (by decide)).1,
    by decide⟩

/-! ### C9 -/

theorem lengthsOk_mem (l : List Event) (hl : lengthsOk l = true) :
    ∀ e ∈ l,
      (∀ data n, e = Event.cyhal_uart_write_async data n →
        n = DATA_SIZE ∧ data.length = DATA_SIZE) ∧
      (∀ n, e = Event.cyhal_uart_read_async n → n = DATA_SIZE) := by
  induction l with
  | nil => intro e he; cases he
  | cons a l ih =>
    intro e he
    rw [List.mem_cons] at he
    rcases he with rfl | he
    · cases e <;> simp_all [lengthsOk]
    · apply ih _ e he
      cases a <;> simp_all [lengthsOk]

/-- C9: `DATA_SIZE` is 26 and is the declared length of both `tx_data` and `rx_data`, and
in every execution the buffers keep that length and no access falls outside a buffer:
the index of every store of the fill loop (lines 196, 197) and of every load of the
report loop (line 210) is below `DATA_SIZE`; when the fill loop is left (line 200) the
indices it stored to, in `tx_data` and in `rx_data`, are 0, 1, ..., 25, each once, and
when the report loop is left (line 212) so are the indices it loaded from; and every
`cyhal_uart_write_async` and `cyhal_uart_read_async` was called with length `DATA_SIZE`
(the former on `DATA_SIZE` bytes). -/
theorem loops_and_transfers_respect_DATA_SIZE (h : Hal) (sched : List Action) :
    DATA_SIZE = 26 ∧ init.tx_data.length = DATA_SIZE ∧ init.rx_data.length = DATA_SIZE ∧
      (exec h sched init).tx_data.length = DATA_SIZE ∧
      (exec h sched init).rx_data.length = DATA_SIZE ∧
      (exec h sched init).pc ≠ .fault ∧
      (((exec h sched init).pc = .L196 ∨ (exec h sched init).pc = .L197 ∨
          (exec h sched init).pc = .L210) → (exec h sched init).i < DATA_SIZE) ∧
      ((exec h sched init).pc = .L200 →
        storeIndices .tx_data (sinceLoopInit (exec h sched init).mem) = List.range DATA_SIZE ∧
        storeIndices .rx_data (sinceLoopInit (exec h sched init).mem) = List.range DATA_SIZE) ∧
      ((exec h sched init).pc = .L212 →
        loadIndices .tx_data (sinceLoopInit (exec h sched init).mem) = List.range DATA_SIZE ∧
        loadIndices .rx_data (sinceLoopInit (exec h sched init).mem) = List.range DATA_SIZE) ∧
      (∀ e ∈ (exec h sched init).out,
        (∀ data n, e = Event.cyhal_uart_write_async data n →
          n = DATA_SIZE ∧ data.length = DATA_SIZE) ∧
        (∀ n, e = Event.cyhal_uart_read_async n → n = DATA_SIZE)) := by
  obtain ⟨hinv, hout⟩ := lengthsOk_exec h sched
  refine ⟨rfl, rfl, rfl, hinv.1, hinv.2.1, ?_, ?_, ?_, ?_, lengthsOk_mem _ hout⟩
  · intro hp
    have h3 := hinv.2.2
    rw [hp] at h3
    exact h3
  · intro hp
    have h3 := hinv.2.2
    rcases hp with hp | hp | hp <;> rw [hp] at h3
    · exact h3.1
    · exact h3.1
    · exact h3.2.2.1
  · intro hp
    have h3 := hinv.2.2
    rw [hp] at h3
    obtain ⟨t, ht⟩ := h3.2
    rw [← ht]
    exact sinceLoopInit_fillLog t DATA_SIZE
  · intro hp
    have h3 := hinv.2.2
    rw [hp] at h3
    obtain ⟨t, ht⟩ := h3.2.2
    rw [← ht]
    exact sinceLoopInit_reportLog t DATA_SIZE

/-! ### C5 -/

theorem InvRx_mainStep (h : Hal) (s : State) (hs : InvRx s) : InvRx (mainStep h s) := by
  obtain ⟨pc, result, i, tx, rx, st, out, mem, busy, sent⟩ := s
  obtain ⟨h2, h3⟩ := hs
  simp only at h2 h3
  cases pc <;> simp only [mainStep, InvRx, call, printf, handle_error_eq] at h3 ⊢
  all_goals (try (first | (split <;> simp_all [InvRx]; done) | (simp_all [InvRx]; done)))
  case L159 => by_cases hr : result = h.CY_RSLT_SUCCESS <;> simp [hr, h2]
  case L167 => by_cases hr : result = h.CY_RSLT_SUCCESS <;> simp [hr, h2]
  case L194_init => exact ⟨h2, Nat.zero_le _, fun k hk => absurd hk (Nat.not_lt_zero k)⟩
  case L194_cond =>
    obtain ⟨hi, hf⟩ := h3
    by_cases hlt : i < DATA_SIZE
    · simp [hlt, h2, hf]
    · have : i = DATA_SIZE := by omega
      subst this
      simp [h2, hf]
  case L197 =>
    obtain ⟨hi, hf⟩ := h3
    rw [store_in_bounds rx i _ (by omega)]
    exact ⟨by simpa using h2, hi, rxZeroed_set rx i (by omega) hf⟩
  case L194_inc =>
    obtain ⟨hi, hf⟩ := h3
    have hmod : (i + 1) % UINT32_MOD = i + 1 := by
      simp only [DATA_SIZE, UINT32_MOD] at *
      omega
    simp only [hmod]
    exact ⟨h2, hi, hf⟩
  case L213 =>
    have hm : memset rx 0 DATA_SIZE =
        some (List.replicate DATA_SIZE (0 % UINT8_MOD) ++ rx.drop DATA_SIZE) := by
      simp [memset, h2]
    rw [hm]
    refine ⟨?_, trivial⟩
    simp [h2]

theorem InvRx_irq (h : Hal) (event : Nat) (s : State) (hs : InvRx s) :
    InvRx (step h (.irq event) s) := by
  have e : ∀ t : State, t.pc = s.pc → t.i = s.i → t.rx_data = s.rx_data → InvRx t := by
    intro t hpc hi hrx
    unfold InvRx at hs ⊢
    rw [hpc, hi, hrx]
    exact hs
  apply e <;> simp only [step, uart_cb_eq] <;> split_ifs <;> rfl

theorem InvRx_step (h : Hal) (a : Action) (s : State) (ha : a.isDma = false)
    (hs : InvRx s) : InvRx (step h a s) := by
  cases a with
  | main => exact InvRx_mainStep h s hs
  | irq event => exact InvRx_irq h event s hs
  | dma k b => simp [Action.isDma] at ha

theorem InvRx_exec (h : Hal) (s0 : State) (hs0 : s0 = init ∨ LoopHead s0)
    (sched : List Action) (hno : ∀ a ∈ sched, a.isDma = false) :
    InvRx (exec h sched s0) := by
  apply exec_invariant h InvRx (fun a => a.isDma = false) (InvRx_step h) sched s0 hno
  rcases hs0 with rfl | hl
  · simp [InvRx, init]
  · obtain ⟨hpc, _, h2⟩ := hl
    refine ⟨h2, ?_⟩
    rw [hpc]
    trivial

/-- C5: in every iteration of the transfer loop, whatever `rx_data` held when the
iteration began and whatever the interrupt path did meanwhile, as long as only the main
thread writes the receive buffer (the schedule has no store of the DMA engine),
`rx_data[i]` is 0 for every `i < 26` at the moment `cyhal_uart_write_async` is issued
(line 200), during the delay that follows (line 202) and still at the moment
`cyhal_uart_read_async` is issued (line 203). -/
theorem rx_data_is_zero_when_transfers_are_issued (h : Hal) (s0 : State)
    (hs0 : s0 = init ∨ LoopHead s0) (sched : List Action)
    (hno : ∀ a ∈ sched, a.isDma = false)
    (hpc : (exec h sched s0).pc = .L200 ∨ (exec h sched s0).pc = .L202 ∨
      (exec h sched s0).pc = .L203) :
    (∀ i, i < 26 → (exec h sched s0).rx_data[i]? = some 0) ∧
      (exec h sched s0).rx_data = List.replicate 26 0 := by
  obtain ⟨h2, h3⟩ := InvRx_exec h s0 hs0 sched hno
  have hz : rxZeroed DATA_SIZE (exec h sched s0).rx_data := by
    rcases hpc with hp | hp | hp <;> rw [hp] at h3 <;> exact h3
  exact ⟨hz, rxZeroed_replicate _ h2 hz⟩

set_option maxRecDepth 100000 in
/-- Witness for C5: an iteration that starts with `rx_data` full of `0xFF` reaches the
call of `cyhal_uart_read_async` with `rx_data` zero-filled. -/
theorem rx_data_is_zero_when_transfers_are_issued_witness :
    (exec psoc toRead staleLoopHead).pc = .L203 ∧
      (exec psoc toRead staleLoopHead).rx_data = List.replicate 26 0 :=
  ⟨by decide,
    (rx_data_is_zero_when_transfers_are_issued psoc staleLoopHead (Or.inr ⟨rfl, rfl, rfl⟩)
      toRead (by decide) (Or.inr (Or.inr (by decide)))).2⟩

/-! ### C8 -/

theorem beforeFirstTransfer_append (l l2 : List Event)
    (hno : ∀ e ∈ l2, e.isSetupCall = false) :
    (beforeFirstTransfer (l ++ l2)).filter Event.isSetupCall =
      (beforeFirstTransfer l).filter Event.isSetupCall := by
  unfold beforeFirstTransfer
  induction l with
  | nil =>
    simp only [List.nil_append, List.takeWhile_nil, List.filter_nil, List.filter_eq_nil_iff]
    intro e he
    have := hno e (List.takeWhile_subset _ he)
    simp [this]
  | cons a l ih =>
    simp only [List.cons_append, List.takeWhile_cons]
    split_ifs
    · simp only [List.filter_cons, ih]
    · rfl

theorem beforeFirstTransfer_of_all (l : List Event)
    (hl : l.all (fun e => !e.isTransfer) = true) : beforeFirstTransfer l = l := by
  unfold beforeFirstTransfer
  rw [List.takeWhile_eq_self_iff]
  intro e he
  exact List.all_eq_true.mp hl e he

theorem InvSetup_mainStep (h : Hal) (hb : h.cybsp_init = h.CY_RSLT_SUCCESS)
    (hr : h.cy_retarget_io_init_fc = h.CY_RSLT_SUCCESS) (s : State) (hs : InvSetup h s) :
    InvSetup h (mainStep h s) := by
  obtain ⟨pc, result, i, tx, rx, st, out, mem, busy, sent⟩ := s
  obtain ⟨h1, h2, h3, h4, h5, h6⟩ := hs
  simp only at h1 h2 h3 h4 h5 h6
  cases pc <;> simp only [mainStep, call, printf, handle_error_eq]
  all_goals (try (first
    | (simp_all [InvSetup, setupDone, setupSequence, PC.inLoop, Event.isSetupCall,
        Event.isTransfer, List.filter_append, beforeFirstTransfer_append]; done)
    | (split <;> simp_all [InvSetup, setupDone, setupSequence, PC.inLoop, Event.isSetupCall,
        Event.isTransfer, List.filter_append, beforeFirstTransfer_append])))
  case L187 =>
    have hall : (out ++ [Event.cyhal_uart_enable_event
        (h.CYHAL_UART_IRQ_RX_DONE ||| h.CYHAL_UART_IRQ_TX_DONE) UART_PRIORITY true]).all
          (fun e => !e.isTransfer) = true := by
      rw [List.all_append, h5 rfl]
      rfl
    have hf : (out ++ [Event.cyhal_uart_enable_event
        (h.CYHAL_UART_IRQ_RX_DONE ||| h.CYHAL_UART_IRQ_TX_DONE) UART_PRIORITY true]).filter
          Event.isSetupCall = setupSequence h := by
      rw [List.filter_append, h4]
      rfl
    refine ⟨by simp, by simp, by simp, ?_, by simp [PC.inLoop], ?_⟩
    · exact hf
    · intro _
      simp only
      rw [beforeFirstTransfer_of_all _ hall]
      exact hf

theorem uart_cb_lines_are_console (h : Hal) (event : Nat) :
    ∀ e ∈ (if event &&& h.CYHAL_UART_IRQ_TX_DONE = h.CYHAL_UART_IRQ_TX_DONE then
              [Event.printf "Tx Completed \r\n" []] else []) ++
           (if event &&& h.CYHAL_UART_IRQ_RX_DONE = h.CYHAL_UART_IRQ_RX_DONE then
              [Event.printf "Rx Completed \r\n" []] else []),
      e.isSetupCall = false ∧ e.isTransfer = false := by
  intro e he
  rw [List.mem_append] at he
  rcases he with he | he <;> split_ifs at he <;>
    first
    | (rw [List.mem_singleton] at he; subst he; exact ⟨rfl, rfl⟩)
    | cases he

theorem InvSetup_step (h : Hal) (hb : h.cybsp_init = h.CY_RSLT_SUCCESS)
    (hr : h.cy_retarget_io_init_fc = h.CY_RSLT_SUCCESS) (a : Action) (s : State)
    (hs : InvSetup h s) : InvSetup h (step h a s) := by
  cases a with
  | main => exact InvSetup_mainStep h hb hr s hs
  | irq event =>
    have e : ∀ t : State, t.pc = s.pc → t.result = s.result →
        (∃ l2, t.out = s.out ++ l2 ∧ ∀ e ∈ l2, e.isSetupCall = false ∧ e.isTransfer = false) →
        InvSetup h t := by
      intro t hpc hres ⟨l2, hout, hl2⟩
      obtain ⟨h1, h2, h3, h4, h5, h6⟩ := hs
      unfold InvSetup
      rw [hpc, hres, hout]
      refine ⟨h1, h2, h3, ?_, ?_, ?_⟩
      · rw [List.filter_append, h4]
        have : l2.filter Event.isSetupCall = [] := by
          rw [List.filter_eq_nil_iff]
          intro e he
          simp [(hl2 e he).1]
        rw [this, List.append_nil]
      · intro hp
        rw [List.all_append, h5 hp, Bool.true_and, List.all_eq_true]
        intro e he
        simp [(hl2 e he).2]
      · intro hp
        rw [beforeFirstTransfer_append _ _ (fun e he => (hl2 e he).1)]
        exact h6 hp
    apply e
    · simp only [step, uart_cb_eq]
      split_ifs <;> rfl
    · simp only [step, uart_cb_eq]
      split_ifs <;> rfl
    · refine ⟨(if event &&& h.CYHAL_UART_IRQ_TX_DONE = h.CYHAL_UART_IRQ_TX_DONE then
              [Event.printf "Tx Completed \r\n" []] else []) ++
           (if event &&& h.CYHAL_UART_IRQ_RX_DONE = h.CYHAL_UART_IRQ_RX_DONE then
              [Event.printf "Rx Completed \r\n" []] else []), ?_, ?_⟩
      · simp only [step, uart_cb_eq]
        split_ifs <;> rfl
      · exact uart_cb_lines_are_console h event
  | dma k b =>
    simp only [step]
    split_ifs
    · exact hs
    · exact hs

theorem InvSetup_init (h : Hal) : InvSetup h init := by
  simp [InvSetup, init, setupDone, PC.inLoop]

/-- C8: when every setup call succeeds then, in every execution, once `main` is in its
transfer loop the setup calls it has made are exactly, in this order, `cybsp_init`,
`cy_retarget_io_init_fc`, `cyhal_uart_init`, `cyhal_uart_set_baud` with 115200,
`cyhal_uart_set_async_mode` with `CYHAL_ASYNC_DMA`, `cyhal_uart_register_callback` with
`uart_cb`, `cyhal_uart_enable_event` with `RX_DONE | TX_DONE` and `true`; no transfer is
recorded while `main` is still before the loop; and when a transfer has been issued, the
calls made before the first transfer already contain that whole sequence, so
`cyhal_uart_enable_event` was called before any `cyhal_uart_write_async` or
`cyhal_uart_read_async`. -/
theorem setup_calls_in_order_before_transfers (h : Hal) (hok : allSucceed h)
    (sched : List Action) :
    ((exec h sched init).pc.inLoop = true →
        (exec h sched init).out.filter Event.isSetupCall =
          [ Event.cybsp_init, Event.cy_retarget_io_init_fc, Event.cyhal_uart_init uart_config,
            Event.cyhal_uart_set_baud 115200,
            Event.cyhal_uart_set_async_mode .CYHAL_ASYNC_DMA DMA_PRIORITY,
            Event.cyhal_uart_register_callback .uart_cb,
            Event.cyhal_uart_enable_event
              (h.CYHAL_UART_IRQ_RX_DONE ||| h.CYHAL_UART_IRQ_TX_DONE) UART_PRIORITY true ]) ∧
      ((exec h sched init).pc.inLoop = false →
        ∀ e ∈ (exec h sched init).out, e.isTransfer = false) ∧
      ((∃ e ∈ (exec h sched init).out, e.isTransfer = true) →
        (beforeFirstTransfer (exec h sched init).out).filter Event.isSetupCall =
            setupSequence h ∧
          Event.cyhal_uart_enable_event
              (h.CYHAL_UART_IRQ_RX_DONE ||| h.CYHAL_UART_IRQ_TX_DONE) UART_PRIORITY true ∈
            beforeFirstTransfer (exec h sched init).out) := by
  have hinv : InvSetup h (exec h sched init) :=
    exec_invariant_all h (InvSetup h) (InvSetup_step h hok.1 hok.2.1) sched init
      (InvSetup_init h)
  obtain ⟨h1, h2, h3, h4, h5, h6⟩ := hinv
  have hnot : (exec h sched init).pc.inLoop = false →
      ∀ e ∈ (exec h sched init).out, e.isTransfer = false := by
    intro hp e he
    have := List.all_eq_true.mp (h5 hp) e he
    simpa using this
  refine ⟨?_, hnot, ?_⟩
  · intro hp
    rw [h4]
    have : setupDone (exec h sched init).pc = 7 := by
      cases hpc : (exec h sched init).pc <;> simp_all [PC.inLoop, setupDone]
    rw [this]
    rfl
  · intro ⟨e, he, het⟩
    have hp : (exec h sched init).pc.inLoop = true := by
      by_contra hc
      have := hnot (by simpa using hc) e he
      rw [this] at het
      cases het
    refine ⟨h6 hp, ?_⟩
    have hmem : Event.cyhal_uart_enable_event
        (h.CYHAL_UART_IRQ_RX_DONE ||| h.CYHAL_UART_IRQ_TX_DONE) UART_PRIORITY true ∈
          (beforeFirstTransfer (exec h sched init).out).filter Event.isSetupCall := by
      rw [h6 hp]
      simp [setupSequence]
    exact List.mem_of_mem_filter hmem

set_option maxRecDepth 100000 in
/-- Witness for C8: on a platform where every setup call succeeds the main thread
reaches the head of the first iteration having made exactly the seven setup calls. -/
theorem setup_calls_in_order_before_transfers_witness :
    allSucceed psoc ∧ (exec psoc (mainOnly STEPS_SETUP) init).pc = .L193 ∧
      (exec psoc (mainOnly STEPS_SETUP) init).out.filter Event.isSetupCall =
        [ Event.cybsp_init, Event.cy_retarget_io_init_fc, Event.cyhal_uart_init uart_config,
          Event.cyhal_uart_set_baud 115200,
          Event.cyhal_uart_set_async_mode .CYHAL_ASYNC_DMA 3,
          Event.cyhal_uart_register_callback .uart_cb,
          Event.cyhal_uart_enable_event 36 4 true ] :=
  ⟨⟨rfl, rfl, rfl, rfl, rfl, rfl⟩, by decide,
    (setup_calls_in_order_before_transfers psoc ⟨rfl, rfl, rfl, rfl, rfl, rfl⟩
      (mainOnly STEPS_SETUP)).1 (by decide)⟩

/-! ### C10 -/

theorem InvHal_mainStep (h : Hal) (s : State) (hs : InvHal s) : InvHal (mainStep h s) := by
  obtain ⟨pc, result, i, tx, rx, st, out, mem, busy, sent⟩ := s
  obtain ⟨h1, h2⟩ := hs
  simp only at h1 h2
  cases pc <;> simp only [mainStep, call, printf, handle_error_eq]
  all_goals (try (first
    | (simp_all [InvHal, PC.quiet]; done)
    | (split <;> simp_all [InvHal, PC.quiet]; done)))
  case L159 => split_ifs <;> simp_all [InvHal, PC.quiet]
  case L167 => split_ifs <;> simp_all [InvHal, PC.quiet]

theorem InvHal_step (h : Hal) (a : Action) (s : State) (ha : allowed h s a = true)
    (hs : InvHal s) : InvHal (step h a s) := by
  obtain ⟨h1, h2⟩ := hs
  cases a with
  | main => exact InvHal_mainStep h s ⟨h1, h2⟩
  | irq event =>
    simp only [allowed] at ha
    simp only [step, uart_cb_eq]
    by_cases hb : event &&& h.CYHAL_UART_IRQ_RX_DONE = h.CYHAL_UART_IRQ_RX_DONE
    · rw [if_pos hb] at ha
      have hpc := (h1 ha).1
      simp only [if_pos hb]
      refine ⟨by simp, ?_⟩
      intro hq
      simp only at hq
      rw [hpc] at hq
      cases hq
    · simp only [if_neg hb]
      exact ⟨h1, h2⟩
  | dma k b =>
    simp only [step]
    split_ifs
    · exact ⟨h1, h2⟩
    · exact ⟨h1, h2⟩

theorem InvHal_start (s0 : State) (hs0 : QuietStart s0) : InvHal s0 := by
  rcases hs0 with rfl | ⟨⟨hpc, _, _⟩, hst, hb⟩
  · simp [InvHal, init]
  · constructor
    · intro hbusy
      rw [hb] at hbusy
      cases hbusy
    · intro _
      exact hst

/-- C10: the main thread writes `rx_data` only with the zero-fill of line 197 and the
`memset` of line 213.  Issuing `cyhal_uart_read_async` (line 203) takes it to the wait
loop of line 205 with the receive transfer in flight; there it writes nothing, stays put
while it reads `rx_status` as true, and moves on to the report only when it has read
`rx_status` as false.  And under a HAL that signals receive-done only for a receive
transfer in flight, in every iteration a receive transfer is in flight only while the
main thread is in that wait loop with `rx_status` still true, so at lines 197 and 213 no
receive transfer is in flight: `rx_data` is never written by the main thread and by the
DMA engine in the same window. -/
theorem main_writes_rx_data_only_outside_receive_window (h : Hal) (s0 : State)
    (hs0 : QuietStart s0) (sched : List Action) (hc : conforms h sched s0 = true) :
    ((mainStep h (exec h sched s0)).rx_data ≠ (exec h sched s0).rx_data →
        (exec h sched s0).pc = .L197 ∨ (exec h sched s0).pc = .L213) ∧
      ((exec h sched s0).pc = .L203 →
        (mainStep h (exec h sched s0)).pc = .L205 ∧
        (mainStep h (exec h sched s0)).rx_busy = true ∧
        (mainStep h (exec h sched s0)).rx_data = (exec h sched s0).rx_data) ∧
      ((exec h sched s0).pc = .L205 →
        (mainStep h (exec h sched s0)).rx_data = (exec h sched s0).rx_data ∧
        ((exec h sched s0).rx_status = true →
          mainStep h (exec h sched s0) = exec h sched s0) ∧
        ((exec h sched s0).rx_status = false →
          (mainStep h (exec h sched s0)).pc = .L207)) ∧
      ((exec h sched s0).rx_busy = true →
        (exec h sched s0).pc = .L205 ∧ (exec h sched s0).rx_status = true) ∧
      (((exec h sched s0).pc = .L197 ∨ (exec h sched s0).pc = .L213) →
        (exec h sched s0).rx_busy = false) := by
  have hinv : InvHal (exec h sched s0) :=
    exec_invariant_conforms h InvHal (InvHal_step h) sched s0 hc (InvHal_start s0 hs0)
  generalize exec h sched s0 = s at hinv
  obtain ⟨pc, result, i, tx, rx, st, out, mem, busy, sent⟩ := s
  obtain ⟨h1, h2⟩ := hinv
  simp only at h1 h2
  refine ⟨?_, ?_, ?_, h1, ?_⟩
  · intro hne
    cases pc <;> simp only [mainStep, call, printf, handle_error_eq] at hne <;>
      first
      | (exact Or.inl rfl)
      | (exact Or.inr rfl)
      | (exfalso; exact hne rfl)
      | (exfalso; apply hne; split_ifs <;> rfl)
      | (exfalso; apply hne; split <;> rfl)
  · intro hp
    simp only at hp
    subst hp
    simp [mainStep, call]
  · intro hp
    simp only at hp
    subst hp
    cases st <;> simp [mainStep]
  · intro hp
    simp only at hp
    cases hb : busy
    · rfl
    · have := (h1 hb).1
      rcases hp with hp | hp <;> rw [hp] at this <;> cases this

set_option maxRecDepth 100000 in
/-- Witness for C10: a conforming schedule with the receive transfer in flight; the main
thread is in its wait loop. -/
theorem main_writes_rx_data_only_outside_receive_window_witness :
    conforms psoc toReceiveInFlight init = true ∧
      (exec psoc toReceiveInFlight init).rx_busy = true ∧
      (exec psoc toReceiveInFlight init).pc = .L205 ∧
      (exec psoc toReceiveInFlight init).rx_status = true :=
  ⟨by decide, by decide,
    (main_writes_rx_data_only_outside_receive_window psoc init (Or.inl rfl) toReceiveInFlight
      (by decide)).2.2.2.1 (by decide)⟩

/-! ### C6 -/

theorem list_of_length_26 (l : List Nat) (hl : l.length = 26) :
    ∃ f : Nat → Nat, l = (List.range 26).map f := by
  refine ⟨fun k => l.getD k 0, ?_⟩
  apply List.ext_getElem?
  intro k
  by_cases hk : k < 26
  · simp [List.getElem?_map, List.getElem?_range hk, List.getD_eq_getElem?_getD,
      List.getElem?_eq_getElem (hl ▸ hk)]
  · rw [List.getElem?_eq_none (by omega), List.getElem?_eq_none (by simp; omega)]

theorem loopback_run_add (h : Hal) (a b : Nat) (s : State) :
    loopback_run h (a + b) s = loopback_run h b (loopback_run h a s) := by
  induction a generalizing s with
  | zero => simp [loopback_run]
  | succ a ih =>
    rw [Nat.succ_add]
    simp only [loopback_run]
    exact ih _

theorem loopback_step_Inv (h : Hal) (s : State) (hs : Inv s) : Inv (loopback_step h s) := by
  unfold loopback_step
  split_ifs
  · exact exec_invariant_all h Inv (Inv_step h) _ s hs
  · exact Inv_mainStep h s hs

theorem loopback_run_Inv (h : Hal) (n : Nat) (s : State) (hs : Inv s) :
    Inv (loopback_run h n s) := by
  induction n generalizing s with
  | zero => exact hs
  | succ n ih => exact ih _ (loopback_step_Inv h s hs)

theorem loopback_step_main (h : Hal) (s : State) (hpc : s.pc ≠ .L205) :
    loopback_step h s = mainStep h s := by
  unfold loopback_step
  rw [if_neg]
  intro hc
  exact hpc hc.1

/-- One pass of the fill loop: four statements. -/
theorem fill_pass (h : Hal) (s : State) (hpc : s.pc = .L194_cond) (hi : s.i < 26)
    (htx : s.tx_data.length = 26) (hrx : s.rx_data.length = 26) :
    (loopback_run h 4 s).pc = .L194_cond ∧ (loopback_run h 4 s).i = s.i + 1 ∧
      (loopback_run h 4 s).tx_data.length = 26 ∧ (loopback_run h 4 s).rx_data.length = 26 := by
  obtain ⟨pc, result, i, tx, rx, st, out, mem, busy, sent⟩ := s
  simp only at hpc hi htx hrx
  subst hpc
  have hmod : (i + 1) % UINT32_MOD = i + 1 := by
    simp only [UINT32_MOD]
    omega
  simp [loopback_run, loopback_step, mainStep, store, DATA_SIZE, hi, htx, hrx, hmod]

theorem fill_loop_exit (h : Hal) (k : Nat) :
    ∀ s : State, s.pc = .L194_cond → s.i + k = 26 → s.tx_data.length = 26 →
      s.rx_data.length = 26 → (loopback_run h (4 * k + 1) s).pc = .L200 := by
  induction k with
  | zero =>
    intro s hpc hi _ _
    obtain ⟨pc, result, i, tx, rx, st, out, mem, busy, sent⟩ := s
    simp only [Nat.add_zero] at hpc hi
    subst hpc hi
    simp [loopback_run, loopback_step, mainStep, DATA_SIZE]
  | succ k ih =>
    intro s hpc hi htx hrx
    have e : 4 * (k + 1) + 1 = 4 + (4 * k + 1) := by omega
    rw [e, loopback_run_add]
    obtain ⟨p1, p2, p3, p4⟩ := fill_pass h s hpc (by omega) htx hrx
    exact ih _ p1 (by omega) p3 p4

/-- One pass of the report loop: three statements, none of which writes a buffer. -/
theorem report_pass (h : Hal) (s : State) (hpc : s.pc = .L208_cond) (hi : s.i < 26)
    (htx : s.tx_data.length = 26) (hrx : s.rx_data.length = 26) :
    (loopback_run h 3 s).pc = .L208_cond ∧ (loopback_run h 3 s).i = s.i + 1 ∧
      (loopback_run h 3 s).tx_data = s.tx_data ∧ (loopback_run h 3 s).rx_data = s.rx_data := by
  obtain ⟨pc, result, i, tx, rx, st, out, mem, busy, sent⟩ := s
  simp only at hpc hi htx hrx
  subst hpc
  have hmod : (i + 1) % UINT32_MOD = i + 1 := by
    simp only [UINT32_MOD]
    omega
  have e1 : tx[i]? = some tx[i] := List.getElem?_eq_getElem (by omega)
  have e2 : rx[i]? = some rx[i] := List.getElem?_eq_getElem (by omega)
  simp [loopback_run, loopback_step, mainStep, printf, DATA_SIZE, hi, hmod, e1, e2]

theorem report_loop_exit (h : Hal) (k : Nat) :
    ∀ s : State, s.pc = .L208_cond → s.i + k = 26 → s.tx_data.length = 26 →
      s.rx_data.length = 26 →
      (loopback_run h (3 * k + 1) s).pc = .L212 ∧
        (loopback_run h (3 * k + 1) s).tx_data = s.tx_data ∧
        (loopback_run h (3 * k + 1) s).rx_data = s.rx_data := by
  induction k with
  | zero =>
    intro s hpc hi _ _
    obtain ⟨pc, result, i, tx, rx, st, out, mem, busy, sent⟩ := s
    simp only [Nat.add_zero] at hpc hi
    subst hpc hi
    simp [loopback_run, loopback_step, mainStep, DATA_SIZE]
  | succ k ih =>
    intro s hpc hi htx hrx
    have e : 3 * (k + 1) + 1 = 3 + (3 * k + 1) := by omega
    rw [e, loopback_run_add]
    obtain ⟨p1, p2, p3, p4⟩ := report_pass h s hpc (by omega) htx hrx
    obtain ⟨q1, q2, q3⟩ := ih _ p1 (by omega) (by rw [p3]; exact htx) (by rw [p4]; exact hrx)
    exact ⟨q1, by rw [q2, p3], by rw [q3, p4]⟩

/-- Actions of the interrupt path and the DMA engine leave the position of the main
thread, its counter and the size of the receive buffer alone. -/
theorem exec_env_frame (h : Hal) (acts : List Action) (s : State)
    (hno : ∀ a ∈ acts, a ≠ Action.main) :
    (exec h acts s).pc = s.pc ∧ (exec h acts s).i = s.i ∧
      (exec h acts s).rx_data.length = s.rx_data.length := by
  apply exec_invariant h
    (fun t => t.pc = s.pc ∧ t.i = s.i ∧ t.rx_data.length = s.rx_data.length)
    (fun a => a ≠ Action.main) _ acts s hno ⟨rfl, rfl, rfl⟩
  intro a t ha ⟨h1, h2, h3⟩
  cases a with
  | main => exact absurd rfl ha
  | irq event =>
    simp only [step, uart_cb_eq]
    split_ifs <;> exact ⟨h1, h2, h3⟩
  | dma k b =>
    simp only [step]
    split_ifs
    · exact ⟨h1, h2, by simpa using h3⟩
    · exact ⟨h1, h2, h3⟩

theorem loopback_complete_no_main (h : Hal) (s : State) :
    ∀ a ∈ loopback_complete h s, a ≠ Action.main := by
  intro a ha
  unfold loopback_complete at ha
  rw [List.mem_append] at ha
  rcases ha with ha | ha
  · rw [List.mem_iff_getElem] at ha
    obtain ⟨n, hn, rfl⟩ := ha
    simp
  · rw [List.mem_singleton] at ha
    subst ha
    simp

theorem loopback_step_InvRx (h : Hal) (s : State) (hs : InvRx s) :
    InvRx (loopback_step h s) := by
  unfold loopback_step
  split_ifs with hc
  · obtain ⟨e1, _, e3⟩ := exec_env_frame h _ s (loopback_complete_no_main h s)
    unfold InvRx
    rw [e1, e3, hc.1]
    exact ⟨hs.1, trivial⟩
  · exact InvRx_mainStep h s hs

theorem loopback_run_InvRx (h : Hal) (n : Nat) (s : State) (hs : InvRx s) :
    InvRx (loopback_run h n s) := by
  induction n generalizing s with
  | zero => exact hs
  | succ n ih => exact ih _ (loopback_step_InvRx h s hs)

/-- The first two statements of an iteration lead to the test of the fill loop. -/
theorem loopback_enter_fill (h : Hal) (s : State) (hs : LoopHead s) :
    (loopback_run h 2 s).pc = .L194_cond ∧ (loopback_run h 2 s).i = 0 ∧
      (loopback_run h 2 s).tx_data.length = 26 ∧ (loopback_run h 2 s).rx_data.length = 26 := by
  obtain ⟨hp, htx, hrx⟩ := hs
  obtain ⟨pc, result, i, tx, rx, st, out, mem, busy, sent⟩ := s
  simp only at hp htx hrx
  subst hp
  simp only [DATA_SIZE] at htx hrx
  simp [loopback_run, loopback_step, mainStep, call, htx, hrx]

/-- From the head of an iteration to the call of `cyhal_uart_write_async`. -/
theorem loopback_to_write (h : Hal) (s : State) (hs : LoopHead s) :
    (loopback_run h (2 + 105) s).pc = .L200 ∧
      (loopback_run h (2 + 105) s).tx_data = alphabet ∧
      (loopback_run h (2 + 105) s).rx_data = List.replicate 26 0 := by
  have hinv := loopback_run_Inv h (2 + 105) s (Inv_LoopHead s hs)
  have hzero := loopback_run_InvRx h (2 + 105) s ⟨hs.2.2, by rw [hs.1]; trivial⟩
  have h2 := loopback_enter_fill h s hs
  have hpc : (loopback_run h (2 + 105) s).pc = .L200 := by
    rw [loopback_run_add]
    exact fill_loop_exit h 26 _ h2.1 (by rw [h2.2.1]) h2.2.2.1 h2.2.2.2
  generalize loopback_run h (2 + 105) s = t at hinv hzero hpc ⊢
  have h3 := hinv.2.2
  have r2 := hzero.2
  rw [hpc] at h3 r2
  exact ⟨hpc, txFilled_alphabet _ hinv.1 h3.1, rxZeroed_replicate _ hzero.1 r2⟩

/-- The stores of the DMA engine change the receive buffer and nothing else. -/
theorem exec_dma_only (h : Hal) (acts : List Action) :
    ∀ s : State, (∀ a ∈ acts, a.isDma = true) →
      exec h acts s = { s with rx_data := dmaWrites s.rx_busy acts s.rx_data } := by
  induction acts with
  | nil => intro s _; rfl
  | cons a rest ih =>
    intro s hall
    have ha := hall a (List.mem_cons_self a rest)
    have hrest : ∀ b ∈ rest, b.isDma = true := fun b hb => hall b (List.mem_cons_of_mem a hb)
    cases a with
    | main => simp [Action.isDma] at ha
    | irq event => simp [Action.isDma] at ha
    | dma k b =>
      rw [exec_cons, ih _ hrest]
      simp only [step, dmaWrites]
      split_ifs <;> rfl

theorem zipWith_dma_isDma (ks bs : List Nat) :
    ∀ a ∈ List.zipWith Action.dma ks bs, a.isDma = true := by
  intro a ha
  rw [List.mem_iff_getElem] at ha
  obtain ⟨n, hn, rfl⟩ := ha
  simp [Action.isDma]

set_option maxRecDepth 100000 in
theorem dmaWrites_alphabet :
    dmaWrites true (List.zipWith Action.dma (List.range alphabet.length) alphabet)
      (List.replicate 26 0) = alphabet := by
  decide

/-- The two transfers are issued: the main thread arrives in the wait loop with the
receive transfer in flight. -/
theorem loopback_issue_transfers (h : Hal) (s : State) (hpc : s.pc = .L200)
    (htx : s.tx_data = alphabet) :
    (loopback_run h 3 s).pc = .L205 ∧ (loopback_run h 3 s).tx_data = s.tx_data ∧
      (loopback_run h 3 s).rx_data = s.rx_data ∧ (loopback_run h 3 s).rx_busy = true ∧
      (loopback_run h 3 s).tx_sent = alphabet := by
  obtain ⟨pc, result, i, tx, rx, st, out, mem, busy, sent⟩ := s
  simp only at hpc htx
  subst hpc htx
  have ht : List.take DATA_SIZE alphabet = alphabet := by
    rw [alphabet_eq]
    rfl
  simp [loopback_run, loopback_step, mainStep, call, ht]

/-- The receive transfer completes: the bytes submitted arrive in `rx_data` and the
callback clears the flag. -/
theorem loopback_completion (h : Hal) (s : State) (hpc : s.pc = .L205)
    (hb : s.rx_busy = true) (hsent : s.tx_sent = alphabet)
    (hrx : s.rx_data = List.replicate 26 0) :
    (loopback_step h s).pc = .L205 ∧ (loopback_step h s).tx_data = s.tx_data ∧
      (loopback_step h s).rx_data = alphabet ∧ (loopback_step h s).rx_status = false ∧
      (loopback_step h s).rx_busy = false := by
  obtain ⟨pc, result, i, tx, rx, st, out, mem, busy, sent⟩ := s
  simp only at hpc hb hsent hrx
  subst hpc hb hsent hrx
  unfold loopback_step
  rw [if_pos ⟨rfl, rfl⟩]
  unfold loopback_complete
  rw [exec_append, exec_dma_only h _ _ (zipWith_dma_isDma _ _)]
  simp only [dmaWrites_alphabet]
  simp [exec, step, uart_cb_eq]

/-- The main thread leaves the wait loop and prints the header of the report. -/
theorem loopback_leave_wait (h : Hal) (s : State) (hpc : s.pc = .L205)
    (hst : s.rx_status = false) (hb : s.rx_busy = false) :
    (loopback_step h s).pc = .L207 ∧ (loopback_step h s).tx_data = s.tx_data ∧
      (loopback_step h s).rx_data = s.rx_data := by
  obtain ⟨pc, result, i, tx, rx, st, out, mem, busy, sent⟩ := s
  simp only at hpc hst hb
  subst hpc hst hb
  simp [loopback_step, mainStep]

theorem loopback_enter_report (h : Hal) (s : State) (hpc : s.pc = .L207) :
    (loopback_run h 2 s).pc = .L208_cond ∧ (loopback_run h 2 s).i = 0 ∧
      (loopback_run h 2 s).tx_data = s.tx_data ∧ (loopback_run h 2 s).rx_data = s.rx_data := by
  obtain ⟨pc, result, i, tx, rx, st, out, mem, busy, sent⟩ := s
  simp only at hpc
  subst hpc
  simp [loopback_run, loopback_step, mainStep, printf]

/-- The end of an iteration: the flag is set, `rx_data` is cleared, and after the delay
the main thread is back at the head of the loop. -/
theorem loopback_finish (h : Hal) (s : State) (hpc : s.pc = .L212)
    (hrx : s.rx_data.length = 26) :
    (loopback_run h 3 s).pc = .L193 ∧ (loopback_run h 3 s).tx_data = s.tx_data ∧
      (loopback_run h 3 s).rx_data = List.replicate 26 0 ∧
      (loopback_run h 3 s).rx_status = true := by
  obtain ⟨pc, result, i, tx, rx, st, out, mem, busy, sent⟩ := s
  simp only at hpc hrx
  subst hpc
  simp [loopback_run, loopback_step, mainStep, call, memset, DATA_SIZE, hrx, UINT8_MOD]

/-- From the head of an iteration to the report step on a loopback wire. -/
theorem loopback_to_report (h : Hal) (s : State) (hs : LoopHead s) :
    (loopback_run h STEPS_TO_REPORT s).pc = .L207 ∧
      (loopback_run h STEPS_TO_REPORT s).tx_data = alphabet ∧
      (loopback_run h STEPS_TO_REPORT s).rx_data = alphabet := by
  have e : STEPS_TO_REPORT = 2 + 105 + 3 + 1 + 1 := rfl
  rw [e, loopback_run_add, loopback_run_add, loopback_run_add]
  obtain ⟨a1, a2, a3⟩ := loopback_to_write h s hs
  generalize loopback_run h (2 + 105) s = t1 at a1 a2 a3 ⊢
  obtain ⟨b1, b2, b3, b4, b5⟩ := loopback_issue_transfers h t1 a1 a2
  generalize loopback_run h 3 t1 = t2 at b1 b2 b3 b4 b5 ⊢
  obtain ⟨c1, c2, c3, c4, c5⟩ := loopback_completion h t2 b1 b4 b5 (b3.trans a3)
  have r1 : loopback_run h 1 t2 = loopback_step h t2 := rfl
  rw [r1]
  generalize loopback_step h t2 = t3 at c1 c2 c3 c4 c5 ⊢
  obtain ⟨d1, d2, d3⟩ := loopback_leave_wait h t3 c1 c4 c5
  have r2 : loopback_run h 1 t3 = loopback_step h t3 := rfl
  rw [r2]
  exact ⟨d1, by rw [d2, c2, b2, a2], by rw [d3, c3]⟩

theorem alphabet_length : alphabet.length = 26 := by
  rw [alphabet_eq]
  rfl

/-- From the report step through the report loop: no buffer changes. -/
theorem loopback_through_report (h : Hal) (s : State) (hpc : s.pc = .L207)
    (htx : s.tx_data.length = 26) (hrx : s.rx_data.length = 26) :
    (loopback_run h (2 + (3 * 26 + 1)) s).pc = .L212 ∧
      (loopback_run h (2 + (3 * 26 + 1)) s).tx_data = s.tx_data ∧
      (loopback_run h (2 + (3 * 26 + 1)) s).rx_data = s.rx_data := by
  rw [loopback_run_add]
  obtain ⟨a1, a2, a3, a4⟩ := loopback_enter_report h s hpc
  generalize loopback_run h 2 s = t at a1 a2 a3 a4 ⊢
  obtain ⟨b1, b2, b3⟩ := report_loop_exit h 26 t a1 (by rw [a2]) (by rw [a3]; exact htx)
    (by rw [a4]; exact hrx)
  exact ⟨b1, by rw [b2, a3], by rw [b3, a4]⟩

/-- C6, as amended: on a loopback wire, from the head of any iteration (whatever the
buffers hold), the main thread reaches the report step (line 207) with
`rx_data[i] = tx_data[i] = 65 + i` for every `i < 26`, both buffers spelling
`ABCDEFGHIJKLMNOPQRSTUVWXYZ`; the buffers are still so when the report loop has printed
its last row (line 212); and when the iteration is complete (the main thread is back at
line 193) `tx_data` still spells the alphabet while `rx_data` has been cleared to 26 zero
bytes by the `memset` of line 213. -/
theorem loopback_echo_at_report_cleared_after (h : Hal) (s0 : State) (hs0 : LoopHead s0) :
    ((loopback_run h STEPS_TO_REPORT s0).pc = .L207 ∧
        (∀ i, i < 26 →
          (loopback_run h STEPS_TO_REPORT s0).rx_data[i]? = some (65 + i) ∧
          (loopback_run h STEPS_TO_REPORT s0).tx_data[i]? = some (65 + i)) ∧
        (loopback_run h STEPS_TO_REPORT s0).rx_data =
          (loopback_run h STEPS_TO_REPORT s0).tx_data ∧
        String.mk ((loopback_run h STEPS_TO_REPORT s0).rx_data.map Char.ofNat) =
          "ABCDEFGHIJKLMNOPQRSTUVWXYZ") ∧
      ((loopback_run h STEPS_TO_RESET s0).pc = .L212 ∧
        (loopback_run h STEPS_TO_RESET s0).rx_data = (loopback_run h STEPS_TO_RESET s0).tx_data ∧
        String.mk ((loopback_run h STEPS_TO_RESET s0).rx_data.map Char.ofNat) =
          "ABCDEFGHIJKLMNOPQRSTUVWXYZ") ∧
      ((loopback_run h STEPS_PER_CYCLE s0).pc = .L193 ∧
        (loopback_run h STEPS_PER_CYCLE s0).rx_data = List.replicate 26 0 ∧
        String.mk ((loopback_run h STEPS_PER_CYCLE s0).tx_data.map Char.ofNat) =
          "ABCDEFGHIJKLMNOPQRSTUVWXYZ") := by
  have hstr : String.mk (alphabet.map Char.ofNat) = "ABCDEFGHIJKLMNOPQRSTUVWXYZ" := by
    rw [alphabet_eq]
    decide
  have hget : ∀ i, i < 26 → alphabet[i]? = some (65 + i) := by
    intro i hi
    rw [alphabet_eq]
    interval_cases i <;> rfl
  have e1 : STEPS_TO_RESET = STEPS_TO_REPORT + (2 + (3 * 26 + 1)) := rfl
  have e2 : STEPS_PER_CYCLE = STEPS_TO_REPORT + (2 + (3 * 26 + 1)) + 3 := rfl
  obtain ⟨a1, a2, a3⟩ := loopback_to_report h s0 hs0
  rw [e1, e2, loopback_run_add h (STEPS_TO_REPORT + (2 + (3 * 26 + 1))) 3 s0,
    loopback_run_add h STEPS_TO_REPORT (2 + (3 * 26 + 1)) s0]
  generalize loopback_run h STEPS_TO_REPORT s0 = t1 at a1 a2 a3 ⊢
  obtain ⟨b1, b2, b3⟩ := loopback_through_report h t1 a1 (by rw [a2]; exact alphabet_length)
    (by rw [a3]; exact alphabet_length)
  generalize loopback_run h (2 + (3 * 26 + 1)) t1 = t2 at b1 b2 b3 ⊢
  obtain ⟨c1, c2, c3, _⟩ := loopback_finish h t2 b1 (by rw [b3, a3]; exact alphabet_length)
  have hb3 := b3.trans a3
  have hb2 := b2.trans a2
  have hc2 := c2.trans hb2
  refine ⟨⟨a1, ?_, a3.trans a2.symm, ?_⟩, ⟨b1, hb3.trans hb2.symm, ?_⟩, ⟨c1, c3, ?_⟩⟩
  · intro i hi
    rw [a2, a3]
    exact ⟨hget i hi, hget i hi⟩
  · rw [a3]
    exact hstr
  · rw [hb3]
    exact hstr
  · rw [hc2]
    exact hstr

set_option maxRecDepth 100000 in
/-- Witness for C6 as amended: the first iteration after a successful setup. -/
theorem loopback_echo_at_report_cleared_after_witness :
    LoopHead firstLoopHead ∧
      (loopback_run psoc STEPS_TO_REPORT firstLoopHead).pc = .L207 ∧
      (loopback_run psoc STEPS_TO_REPORT firstLoopHead).rx_data =
        (loopback_run psoc STEPS_TO_REPORT firstLoopHead).tx_data ∧
      ((loopback_run psoc STEPS_TO_RESET firstLoopHead).out.reverse.take 26).reverse =
        alphabet.map (fun c => Event.printf "\t %c \t\t %c \r\n" [c, c]) :=
  ⟨⟨by decide, by decide, by decide⟩,
    (loopback_echo_at_report_cleared_after psoc firstLoopHead
      ⟨by decide, by decide, by decide⟩).1.1,
    (loopback_echo_at_report_cleared_after psoc firstLoopHead
      ⟨by decide, by decide, by decide⟩).1.2.2.1,
    by decide⟩

set_option maxRecDepth 100000 in
/-- Counterexample to C6 as stated: on a loopback wire, after one complete iteration of
the loop body (the main thread is back at line 193) `rx_data` holds 26 zero bytes while
`tx_data` spells the alphabet, so `rx_data[i] = tx_data[i]` fails (already at `i = 0`,
0 against 65). -/
theorem loopback_full_cycle_rx_data_differs :
    (loopback_run psoc STEPS_PER_CYCLE firstLoopHead).pc = .L193 ∧
      (loopback_run psoc STEPS_PER_CYCLE firstLoopHead).rx_data[0]? = some 0 ∧
      (loopback_run psoc STEPS_PER_CYCLE firstLoopHead).tx_data[0]? = some 65 ∧
      ¬ (∀ i, i < 26 →
        (loopback_run psoc STEPS_PER_CYCLE firstLoopHead).rx_data[i]? =
          (loopback_run psoc STEPS_PER_CYCLE firstLoopHead).tx_data[i]?) := by
  refine ⟨by decide, by decide, by decide, ?_⟩
  intro hall
  have h0 := hall 0 (by decide)
  revert h0
  decide

/-! ### C2 -/

set_option maxRecDepth 100000 in
/-- C2, the defect: `cyhal_uart_init` reports a status other than `CY_RSLT_SUCCESS`
(every other call succeeds), and `main` does not halt: it discards the status, enters the
transfer loop and issues both transfers. -/
theorem uart_init_failure_is_not_fatal :
    psoc_uart_init_fails.cyhal_uart_init ≠ psoc_uart_init_fails.CY_RSLT_SUCCESS ∧
      (exec psoc_uart_init_fails (mainOnly (STEPS_SETUP + STEPS_TO_WRITE + 3)) init).pc = .L205 ∧
      Event.cyhal_uart_write_async alphabet 26 ∈
        (exec psoc_uart_init_fails (mainOnly (STEPS_SETUP + STEPS_TO_WRITE + 3)) init).out ∧
      Event.cyhal_uart_read_async 26 ∈
        (exec psoc_uart_init_fails (mainOnly (STEPS_SETUP + STEPS_TO_WRITE + 3)) init).out := by
  refine ⟨by decide, by decide, by decide, by decide⟩

/-- A callback keeps the position and the locals of `main` and appends its log lines. -/
theorem step_irq_fields (h : Hal) (event : Nat) (s : State) :
    (step h (.irq event) s).out = s.out ++
        ((if event &&& h.CYHAL_UART_IRQ_TX_DONE = h.CYHAL_UART_IRQ_TX_DONE then
            [Event.printf "Tx Completed \r\n" []] else []) ++
         (if event &&& h.CYHAL_UART_IRQ_RX_DONE = h.CYHAL_UART_IRQ_RX_DONE then
            [Event.printf "Rx Completed \r\n" []] else [])) ∧
      (step h (.irq event) s).pc = s.pc ∧ (step h (.irq event) s).result = s.result := by
  simp only [step, uart_cb_eq]
  split_ifs <;> exact ⟨rfl, rfl, rfl⟩

theorem InvFatal_step (h : Hal)
    (hfail : h.cybsp_init ≠ h.CY_RSLT_SUCCESS ∨
      h.cy_retarget_io_init_fc ≠ h.CY_RSLT_SUCCESS)
    (a : Action) (s : State) (hs : InvFatal h s) : InvFatal h (step h a s) := by
  obtain ⟨pc, result, i, tx, rx, st, out, mem, busy, sent⟩ := s
  obtain ⟨h1, h2⟩ := hs
  simp only at h1 h2
  cases a with
  | main =>
    cases pc <;> simp only [InvFatal] at h2 <;> try (exact h2.elim)
    case L158 => simpa [step, mainStep, call, InvFatal, Event.isTransfer] using h1
    case L159 =>
      subst h2
      by_cases hb : h.cybsp_init = h.CY_RSLT_SUCCESS <;>
        simp [step, mainStep, handle_error_eq, InvFatal, hb, h1]
    case L162 => simpa [step, mainStep, call, InvFatal, Event.isTransfer, h2] using h1
    case L167 =>
      obtain ⟨hb, hr⟩ := h2
      subst hr
      have hne : h.cy_retarget_io_init_fc ≠ h.CY_RSLT_SUCCESS := by
        rcases hfail with hf | hf
        · exact absurd hb hf
        · exact hf
      simp [step, mainStep, handle_error_eq, InvFatal, hne, h1]
    case halt => simpa [step, mainStep, InvFatal] using h1
  | irq event =>
    obtain ⟨e1, e2, e3⟩ := step_irq_fields h event
      { pc := pc, result := result, i := i, tx_data := tx, rx_data := rx, rx_status := st,
        out := out, mem := mem, rx_busy := busy, tx_sent := sent }
    unfold InvFatal
    rw [e1, e2, e3]
    refine ⟨?_, h2⟩
    rw [List.all_append, h1, Bool.true_and, List.all_eq_true]
    intro e he
    simp [(uart_cb_lines_are_console h event e he).2]
  | dma k b =>
    simp only [step]
    split_ifs
    · exact ⟨h1, h2⟩
    · exact ⟨h1, h2⟩

/-- What holds of C2: when `cybsp_init` or `cy_retarget_io_init_fc` reports a status
other than `CY_RSLT_SUCCESS`, `main` never enters the transfer loop and no transfer is
ever issued. -/
theorem checked_setup_failure_is_fatal (h : Hal)
    (hfail : h.cybsp_init ≠ h.CY_RSLT_SUCCESS ∨
      h.cy_retarget_io_init_fc ≠ h.CY_RSLT_SUCCESS)
    (sched : List Action) :
    (exec h sched init).pc.inLoop = false ∧
      ∀ e ∈ (exec h sched init).out, e.isTransfer = false := by
  have hinv : InvFatal h (exec h sched init) :=
    exec_invariant_all h (InvFatal h) (InvFatal_step h hfail) sched init
      ⟨rfl, trivial⟩
  generalize exec h sched init = s at hinv
  obtain ⟨h1, h2⟩ := hinv
  constructor
  · cases hpc : s.pc <;> rw [hpc] at h2 <;> simp only [InvFatal] at h2 <;> rfl
  · intro e he
    have := List.all_eq_true.mp h1 e he
    simpa using this

set_option maxRecDepth 100000 in
/-- A failing `cybsp_init` halts `main` at the first `handle_error`. -/
theorem checked_setup_failure_is_fatal_witness :
    (exec psoc_bsp_fails (mainOnly 40) init).pc = .halt ∧
      (exec psoc_bsp_fails (mainOnly 40) init).pc.inLoop = false :=
  ⟨by decide, (checked_setup_failure_is_fatal psoc_bsp_fails (Or.inl (by decide)) _).1⟩

end UartDma
